import Mathlib

/-!
# gross: fingerprint, decision engine and worker front-end

A shallow embedding of `src/sha256.c` and of `test_tuple`, `worker`,
`tcp_server` and `udp_server` of `src/worker.c`, followed by theorems about them.

Conventions of the embedding:

* a byte (`sha_byte_t`, `char`) is a natural number below 256, a region of memory
  is a `List Nat` of bytes in increasing address order;
* a `sha_uint_t` is a natural number reduced modulo `2^32` after every operation
  that can carry (`u32`), a `sha_ulong_t` one reduced modulo `2^64` (`u64`); the two
  types are declared in `sha256.h`, which is not among the sources, and their widths are
  the ones the code relies on (`rotate_right` shifts by `32 - amount`,
  `convert_int32_little_endian` swaps four bytes, `convert_int64_little_endian` eight);
* the host byte order is a parameter `host : Bool` (`true`: the least significant
  byte of an integer object has the lowest address); integer objects are moved in and
  out of memory with `store` and `load`;
* a loop whose trip count is not fixed takes a fuel argument and returns `none`
  when the fuel runs out or when it reads outside an object.
-/

namespace Gross

/-! ## `sha256.c` -/

/-- The struct `sha_256_t`: the eight 32-bit words `h0..h7`. -/
structure sha_256_t where
  h0 : Nat
  h1 : Nat
  h2 : Nat
  h3 : Nat
  h4 : Nat
  h5 : Nat
  h6 : Nat
  h7 : Nat
deriving DecidableEq, Repr

/-- Reduction to the range of `sha_uint_t` (32 bits). -/
def u32 (x : Nat) : Nat := x % 4294967296

/-- Reduction to the range of `sha_ulong_t` (64 bits). -/
def u64 (x : Nat) : Nat := x % 18446744073709551616

/-- The constant `DEFAULT_SHA256`. -/
def DEFAULT_SHA256 : sha_256_t :=
  { h0 := 0x6a09e667, h1 := 0xbb67ae85, h2 := 0x3c6ef372, h3 := 0xa54ff53a,
    h4 := 0x510e527f, h5 := 0x9b05688c, h6 := 0x1f83d9ab, h7 := 0x5be0cd19 }

/-- The table `ROUND_CONSTANTS[64]`, one row of the initialiser per line. -/
def ROUND_CONSTANTS : List Nat :=
  [0x428a2f98, 0x71374491, 0xb5c0fbcf, 0xe9b5dba5, 0x3956c25b, 0x59f111f1, 0x923f82a4, 0xab1c5ed5] ++
  [0xd807aa98, 0x12835b01, 0x243185be, 0x550c7dc3, 0x72be5d74, 0x80deb1fe, 0x9bdc06a7, 0xc19bf174] ++
  [0xe49b69c1, 0xefbe4786, 0x0fc19dc6, 0x240ca1cc, 0x2de92c6f, 0x4a7484aa, 0x5cb0a9dc, 0x76f988da] ++
  [0x983e5152, 0xa831c66d, 0xb00327c8, 0xbf597fc7, 0xc6e00bf3, 0xd5a79147, 0x06ca6351, 0x14292967] ++
  [0x27b70a85, 0x2e1b2138, 0x4d2c6dfc, 0x53380d13, 0x650a7354, 0x766a0abb, 0x81c2c92e, 0x92722c85] ++
  [0xa2bfe8a1, 0xa81a664b, 0xc24b8b70, 0xc76c51a3, 0xd192e819, 0xd6990624, 0xf40e3585, 0x106aa070] ++
  [0x19a4c116, 0x1e376c08, 0x2748774c, 0x34b0bcb5, 0x391c0cb3, 0x4ed8aa4a, 0x5b9cca4f, 0x682e6ff3] ++
  [0x748f82ee, 0x78a5636f, 0x84c87814, 0x8cc70208, 0x90befffa, 0xa4506ceb, 0xbef9a3f7, 0xc67178f2]

/-- The function `rotate_right`: `(num >> amount) | (num << (32 - amount))` on `sha_uint_t`. -/
def rotate_right (num amount : Nat) : Nat :=
  (num >>> amount) ||| u32 (num <<< (32 - amount))

/-- The object representation of an `n`-byte unsigned integer `v` on the host:
its bytes in increasing address order. -/
def store (host : Bool) : Nat → Nat → List Nat
  | 0, _ => []
  | n + 1, v => if host then v % 256 :: store host n (v / 256) else store host n (v / 256) ++ [v % 256]

/-- The unsigned integer whose object representation on the host is `bytes`. -/
def load (host : Bool) (bytes : List Nat) : Nat :=
  if host then bytes.foldr (fun b acc => b + 256 * acc) 0
  else bytes.foldl (fun acc b => 256 * acc + b) 0

/-- The function `little_endian`: stores the `int` 1 and looks at the byte at its
lowest address. -/
def little_endian (host : Bool) : Bool :=
  (store host 4 1).getD 0 0 == 1

/-- The function `swap_bytes`, on the bytes at offsets `a` and `b` of an object. -/
def swap_bytes (mem : List Nat) (a b : Nat) : List Nat :=
  let tmp := mem.getD a 0
  (mem.set a (mem.getD b 0)).set b tmp

/-- The function `convert_int64_little_endian`: reverses the eight bytes of `*num` in place. -/
def convert_int64_little_endian (host : Bool) (num : Nat) : Nat :=
  let index := store host 8 num
  let index := swap_bytes index 0 7
  let index := swap_bytes index 1 6
  let index := swap_bytes index 2 5
  let index := swap_bytes index 3 4
  load host index

/-- The function `convert_int64_big_endian`: leaves `*num` as it is. -/
def convert_int64_big_endian (num : Nat) : Nat := num

/-- The function `convert_int32_little_endian`: reverses the four bytes of `*num` in place. -/
def convert_int32_little_endian (host : Bool) (num : Nat) : Nat :=
  let index := store host 4 num
  let index := swap_bytes index 0 3
  let index := swap_bytes index 1 2
  load host index

/-- The function `convert_int32_big_endian`: leaves `*num` as it is. -/
def convert_int32_big_endian (num : Nat) : Nat := num

/-- The function pointer `p_convert_int64_to_big_endian` as `sha256` uses it: statically
initialised to `convert_int64_big_endian`, redirected when `little_endian()` holds. -/
def p_convert_int64_to_big_endian (host : Bool) : Nat → Nat :=
  if little_endian host then convert_int64_little_endian host else convert_int64_big_endian

/-- The function pointer `p_convert_int32_to_big_endian` as `sha256` uses it. -/
def p_convert_int32_to_big_endian (host : Bool) : Nat → Nat :=
  if little_endian host then convert_int32_little_endian host else convert_int32_big_endian

/-- The padded length `new_size` of `sha256`, in `sha_ulong_t` arithmetic:
`size + 1 + 8 + ((448 - 8 * (size + 1)) % 512) / 8`. -/
def new_size_of (size : Nat) : Nat :=
  u64 (u64 (u64 (size + 1) + 8) +
    (u64 (448 + 18446744073709551616 - u64 (8 * u64 (size + 1))) % 512) / 8)

/-- The loop of `sha256` that copies the bytes of `tmp_size` (at `iter`) to the end of the
buffer: `for (i = new_size - 8, j = 0; i < new_size; i++, j++) buf[i] = iter[j]`, with
`i` and `j` of type `sha_uint_t`. A read past the eight bytes of `tmp_size` has no result. -/
def lengthLoop (new_size : Nat) (iter : List Nat) : Nat → Nat → Nat → List Nat → Option (List Nat)
  | 0, _, _, _ => none
  | fuel + 1, i, j, buf =>
    if i < new_size then
      match iter[j]? with
      | none => none
      | some b => lengthLoop new_size iter fuel (u32 (i + 1)) (u32 (j + 1)) (buf.set i b)
    else some buf

/-- The first inner loop of `sha256`: `w[j/4]` for `j = 0, 4, .., 60` is the word read at
`iter + i + j` in host order and passed through `p_convert_int32_to_big_endian`. -/
def init_w (host : Bool) (iter : List Nat) (i : Nat) : List Nat :=
  ((List.range 16).map (fun k => 4 * k)).foldl
    (fun w j =>
      let chunk := load host ((iter.drop (i + j)).take 4)
      let chunk := p_convert_int32_to_big_endian host chunk
      w.set (j / 4) chunk)
    (List.replicate 64 0)

/-- The second inner loop of `sha256`: `w[16..63]`, written in place. -/
def extend_w (w : List Nat) : List Nat :=
  (List.range' 16 48).foldl
    (fun w j =>
      let s0 := rotate_right (w.getD (j - 15) 0) 7 ^^^ rotate_right (w.getD (j - 15) 0) 18
                  ^^^ (w.getD (j - 15) 0 >>> 3)
      let s1 := rotate_right (w.getD (j - 2) 0) 17 ^^^ rotate_right (w.getD (j - 2) 0) 19
                  ^^^ (w.getD (j - 2) 0 >>> 10)
      w.set j (u32 (u32 (u32 (w.getD (j - 16) 0 + s0) + w.getD (j - 7) 0) + s1)))
    w

/-- One iteration of the main loop of `sha256` on `tmp_digest`. -/
def main_step (w : List Nat) (tmp_digest : sha_256_t) (j : Nat) : sha_256_t :=
  let s0 := rotate_right tmp_digest.h0 2 ^^^ rotate_right tmp_digest.h0 13
              ^^^ rotate_right tmp_digest.h0 22
  let maj := (tmp_digest.h0 &&& tmp_digest.h1) ^^^ (tmp_digest.h1 &&& tmp_digest.h2)
              ^^^ (tmp_digest.h2 &&& tmp_digest.h0)
  let t2 := u32 (s0 + maj)
  let s1 := rotate_right tmp_digest.h4 6 ^^^ rotate_right tmp_digest.h4 11
              ^^^ rotate_right tmp_digest.h4 25
  let ch := (tmp_digest.h4 &&& tmp_digest.h5) ^^^ ((4294967295 - tmp_digest.h4) &&& tmp_digest.h6)
  let t1 := u32 (u32 (u32 (u32 (tmp_digest.h7 + s1) + ch) + ROUND_CONSTANTS.getD j 0) + w.getD j 0)
  { h7 := tmp_digest.h6
    h6 := tmp_digest.h5
    h5 := tmp_digest.h4
    h4 := u32 (tmp_digest.h3 + t1)
    h3 := tmp_digest.h2
    h2 := tmp_digest.h1
    h1 := tmp_digest.h0
    h0 := u32 (t2 + t1) }

/-- The body of the block loop of `sha256` for the block at offset `i`. -/
def process_block (host : Bool) (iter : List Nat) (i : Nat) (digest : sha_256_t) : sha_256_t :=
  let w := extend_w (init_w host iter i)
  let tmp_digest := (List.range 64).foldl (main_step w) digest
  { h0 := u32 (digest.h0 + tmp_digest.h0)
    h1 := u32 (digest.h1 + tmp_digest.h1)
    h2 := u32 (digest.h2 + tmp_digest.h2)
    h3 := u32 (digest.h3 + tmp_digest.h3)
    h4 := u32 (digest.h4 + tmp_digest.h4)
    h5 := u32 (digest.h5 + tmp_digest.h5)
    h6 := u32 (digest.h6 + tmp_digest.h6)
    h7 := u32 (digest.h7 + tmp_digest.h7) }

/-- The block loop of `sha256`: `for (i = 0; i < new_size; i += 64)`, `i` a `sha_uint_t`. -/
def blockLoop (host : Bool) (iter : List Nat) (new_size : Nat) : Nat → Nat → sha_256_t → Option sha_256_t
  | 0, _, _ => none
  | fuel + 1, i, digest =>
    if i < new_size then
      blockLoop host iter new_size fuel (u32 (i + 64)) (process_block host iter i digest)
    else some digest

/-- The buffer `digestable_message` before the length is written: `Malloc`, `bzero`,
`memcpy` of the message and the byte `0x80` at offset `size`. -/
def init_buffer (message : List Nat) : List Nat :=
  let size := message.length
  let digestable_message := List.replicate (new_size_of size) 0
  let digestable_message := message ++ digestable_message.drop size
  digestable_message.set size 0x80

/-- The buffer `digestable_message` that `sha256` hashes, when the loop that writes the
length ends. -/
def padded_buffer (fuel : Nat) (host : Bool) (message : List Nat) : Option (List Nat) :=
  let size := message.length
  let new_size := new_size_of size
  let tmp_size := p_convert_int64_to_big_endian host (u64 (size * 8))
  lengthLoop new_size (store host 8 tmp_size) fuel
    (u32 (u64 (new_size + 18446744073709551616 - 8))) 0 (init_buffer message)

/-- The function `sha256` with the fuel of its loops explicit. -/
def sha256_fuel (fuel : Nat) (host : Bool) (message : List Nat) : Option sha_256_t :=
  match padded_buffer fuel host message with
  | none => none
  | some digestable_message =>
    blockLoop host digestable_message (new_size_of message.length) fuel 0 DEFAULT_SHA256

/-- The function `sha256(message, size)`, `message` being the `size` bytes at the pointer.
The fuel is the number of 64-byte steps below `new_size` plus 9, enough for both loops
whenever they end; `sha256_fuel_mono` shows that more fuel changes no result. -/
def sha256 (host : Bool) (message : List Nat) : Option sha_256_t :=
  sha256_fuel (new_size_of message.length / 64 + 9) host message

/-- The C function `strlen` on the memory at a `char *`: the number of bytes before the first NUL. -/
def strlen (s : List Nat) : Nat := (s.takeWhile (fun c => c != 0)).length

/-- The function `sha256_string`: `sha256(message, strlen(message))`. -/
def sha256_string (host : Bool) (message : List Nat) : Option sha_256_t :=
  sha256 host (message.take (strlen message))

/-! ## FIPS 180-4, SHA-256

The reference definition, written from the standard for messages that are whole bytes
(the message of `l = 8 * n` bits is a list of `n` bytes, most significant bit first). -/

namespace FIPS180

/-- Addition of words is modulo `2^32` (section 2.2.1 with `w = 32`). -/
def add (x y : Nat) : Nat := (x + y) % 2 ^ 32

/-- The operation `ROTR^n(x) = (x >> n) ∨ (x << w - n)` on 32-bit words (section 2.2.2). -/
def ROTR (n x : Nat) : Nat := (x >>> n) ||| ((x <<< (32 - n)) % 2 ^ 32)

/-- The operation `SHR^n(x) = x >> n` (section 2.2.2). -/
def SHR (n x : Nat) : Nat := x >>> n

/-- The bitwise complement of a 32-bit word. -/
def compl (x : Nat) : Nat := 2 ^ 32 - 1 - x

/-- The function `Ch(x, y, z) = (x ∧ y) ⊕ (¬x ∧ z)` (4.2). -/
def Ch (x y z : Nat) : Nat := (x &&& y) ^^^ (compl x &&& z)

/-- The function `Maj(x, y, z) = (x ∧ y) ⊕ (x ∧ z) ⊕ (y ∧ z)` (4.3). -/
def Maj (x y z : Nat) : Nat := (x &&& y) ^^^ (x &&& z) ^^^ (y &&& z)

/-- The function `Σ0(x) = ROTR^2(x) ⊕ ROTR^13(x) ⊕ ROTR^22(x)` (4.4). -/
def Sigma0 (x : Nat) : Nat := ROTR 2 x ^^^ ROTR 13 x ^^^ ROTR 22 x

/-- The function `Σ1(x) = ROTR^6(x) ⊕ ROTR^11(x) ⊕ ROTR^25(x)` (4.5). -/
def Sigma1 (x : Nat) : Nat := ROTR 6 x ^^^ ROTR 11 x ^^^ ROTR 25 x

/-- The function `σ0(x) = ROTR^7(x) ⊕ ROTR^18(x) ⊕ SHR^3(x)` (4.6). -/
def sigma0 (x : Nat) : Nat := ROTR 7 x ^^^ ROTR 18 x ^^^ SHR 3 x

/-- The function `σ1(x) = ROTR^17(x) ⊕ ROTR^19(x) ⊕ SHR^10(x)` (4.7). -/
def sigma1 (x : Nat) : Nat := ROTR 17 x ^^^ ROTR 19 x ^^^ SHR 10 x

/-- The first sixty-four prime numbers. -/
def primes : List Nat :=
  [2, 3, 5, 7, 11, 13, 17, 19, 23, 29, 31, 37, 41, 43, 47, 53, 59, 61, 67, 71, 73, 79, 83, 89,
   97, 101, 103, 107, 109, 113, 127, 131, 137, 139, 149, 151, 157, 163, 167, 173, 179, 181,
   191, 193, 197, 199, 211, 223, 227, 229, 233, 239, 241, 251, 257, 263, 269, 271, 277, 281,
   283, 293, 307, 311]

/-- Bisection for an integer root: the largest `r` in `[lo, hi)` with `r ^ k ≤ n`. -/
def iroot (k n : Nat) : Nat → Nat → Nat → Nat
  | 0, lo, _ => lo
  | fuel + 1, lo, hi =>
    if hi ≤ lo + 1 then lo
    else if ((lo + hi) / 2) ^ k ≤ n then iroot k n fuel ((lo + hi) / 2) hi
    else iroot k n fuel lo ((lo + hi) / 2)

/-- The first thirty-two bits of the fractional part of the `k`-th root of `p`:
the integer part of `2^32` times the root, modulo `2^32`. -/
def fracRoot (k p : Nat) : Nat := iroot k (p * 2 ^ (32 * k)) 40 0 (2 ^ 37) % 2 ^ 32

/-- The constants `K_0 .. K_63` of section 4.2.2: the first thirty-two bits of the
fractional parts of the cube roots of the first sixty-four prime numbers. -/
def K : List Nat := primes.map (fracRoot 3)

/-- The initial hash value `H^(0)` of section 5.3.3: the first thirty-two bits of the
fractional parts of the square roots of the first eight prime numbers. -/
def H0 : sha_256_t :=
  { h0 := fracRoot 2 2, h1 := fracRoot 2 3, h2 := fracRoot 2 5, h3 := fracRoot 2 7,
    h4 := fracRoot 2 11, h5 := fracRoot 2 13, h6 := fracRoot 2 17, h7 := fracRoot 2 19 }

/-- The big-endian encoding of `v` on `n` bytes: byte `i` is digit `n - 1 - i` in base 256. -/
def toBytesBE (n v : Nat) : List Nat :=
  (List.range n).map (fun i => v / 256 ^ (n - 1 - i) % 256)

/-- The value of a big-endian sequence of bytes. -/
def ofBytesBE (bytes : List Nat) : Nat :=
  bytes.foldl (fun acc b => acc * 256 + b) 0

/-- The number `k` of zero bits of the padding of a message of `l` bits: the smallest
non-negative solution of `l + 1 + k ≡ 448 mod 512` (section 5.1.1). -/
def zeroBits (l : Nat) : Nat := (959 - l % 512) % 512

/-- The padded message (section 5.1.1): the bit 1 and `k` zero bits, which after a whole
number of bytes are the byte `0x80` and `k / 8` zero bytes, then `l` as a 64-bit block. -/
def pad (M : List Nat) : List Nat :=
  M ++ [0x80] ++ List.replicate (zeroBits (8 * M.length) / 8) 0 ++ toBytesBE 8 (8 * M.length)

/-- The word `M_t` of block `i` of the parsed message (5.2.1): the four bytes at offset
`64 * i + 4 * t`, most significant first. -/
def M (padded : List Nat) (i t : Nat) : Nat :=
  ofBytesBE ((padded.drop (64 * i + 4 * t)).take 4)

/-- The message schedule `W_0 .. W_(n-1)` of block `i` (6.2.2 step 1). -/
def W (padded : List Nat) (i : Nat) : Nat → List Nat
  | 0 => []
  | t + 1 =>
    let Ws := W padded i t
    Ws ++ [if t < 16 then M padded i t
           else add (add (add (sigma1 (Ws.getD (t - 2) 0)) (Ws.getD (t - 7) 0))
                  (sigma0 (Ws.getD (t - 15) 0))) (Ws.getD (t - 16) 0)]

/-- The eight working variables `a .. h`. -/
structure Vars where
  a : Nat
  b : Nat
  c : Nat
  d : Nat
  e : Nat
  f : Nat
  g : Nat
  h : Nat

/-- Step 3 of 6.2.2 for one `t`. -/
def step (Ws : List Nat) (v : Vars) (t : Nat) : Vars :=
  let T1 := add (add (add (add v.h (Sigma1 v.e)) (Ch v.e v.f v.g)) (K.getD t 0)) (Ws.getD t 0)
  let T2 := add (Sigma0 v.a) (Maj v.a v.b v.c)
  { h := v.g, g := v.f, f := v.e, e := add v.d T1, d := v.c, c := v.b, b := v.a, a := add T1 T2 }

/-- The hash value `H^(i+1)` computed from `H^(i)` and block `i` (6.2.2 steps 1 to 4). -/
def compress (padded : List Nat) (H : sha_256_t) (i : Nat) : sha_256_t :=
  let Ws := W padded i 64
  let v := (List.range 64).foldl (step Ws)
    { a := H.h0, b := H.h1, c := H.h2, d := H.h3, e := H.h4, f := H.h5, g := H.h6, h := H.h7 }
  { h0 := add v.a H.h0, h1 := add v.b H.h1, h2 := add v.c H.h2, h3 := add v.d H.h3,
    h4 := add v.e H.h4, h5 := add v.f H.h5, h6 := add v.g H.h6, h7 := add v.h H.h7 }

/-- The hash value `H^(N)` of the message `M`, as its words `H_0 .. H_7`. -/
def SHA256 (M : List Nat) : sha_256_t :=
  (List.range ((pad M).length / 64)).foldl (compress (pad M)) H0

/-- The message digest as a byte sequence: `H_0 ‖ H_1 ‖ .. ‖ H_7`, each word most
significant byte first. -/
def digestBytes (H : sha_256_t) : List Nat :=
  toBytesBE 4 H.h0 ++ toBytesBE 4 H.h1 ++ toBytesBE 4 H.h2 ++ toBytesBE 4 H.h3 ++
  toBytesBE 4 H.h4 ++ toBytesBE 4 H.h5 ++ toBytesBE 4 H.h6 ++ toBytesBE 4 H.h7

end FIPS180

/-- The working variables `a .. h` initialised with a hash value (6.2.2 step 2). -/
def toVars (d : sha_256_t) : FIPS180.Vars :=
  { a := d.h0, b := d.h1, c := d.h2, d := d.h3, e := d.h4, f := d.h5, g := d.h6, h := d.h7 }

/-! ## `worker.c`: `test_tuple` -/

/-- The struct `gray_tuple_t`: the three C strings of a request, each given by its bytes
before the terminating NUL. -/
structure gray_tuple_t where
  sender : List Nat
  recipient : List Nat
  client_address : List Nat

/-- The content of a C string: bytes, none of them NUL. -/
def IsCString (s : List Nat) : Prop := ∀ c ∈ s, 0 < c ∧ c < 256

instance (s : List Nat) : Decidable (IsCString s) := by
  unfold IsCString; infer_instance

/-- A request whose three fields are C strings. -/
def gray_tuple_t.WellFormed (request : gray_tuple_t) : Prop :=
  IsCString request.client_address ∧ IsCString request.sender ∧ IsCString request.recipient

instance (request : gray_tuple_t) : Decidable request.WellFormed := by
  unfold gray_tuple_t.WellFormed; infer_instance

/-- Modelled from the spec: the verdict constants `STATUS_GRAY`, `STATUS_MATCH` and
`STATUS_TRUST` of `common.h`, which is not among the sources: the three verdicts GRAY,
MATCH and TRUST of the spec, pairwise distinct. -/
inductive Status where
  | STATUS_GRAY
  | STATUS_MATCH
  | STATUS_TRUST
deriving DecidableEq, Repr

/-- The enumerator `UPDATE` of `srvutils.h`. -/
def UPDATE : Nat := 1

/-- The log level `GLOG_INFO` of `srvutils.h`: `LOG_TYPE | LOG_INFO`, with `LOG_INFO = 6`
of `syslog.h`. -/
def GLOG_INFO : Nat := 0x10000 ||| 6

/-- What `test_tuple` reads from outside: the macros of `common.h` and of the build, the
host, the global context, and the values its collaborators return. -/
structure Ctx where
  /-- The macro `MSGSZ` of `common.h`, the size of the buffer `tuple`. -/
  MSGSZ : Nat
  /-- Whether the build defines `DNSBL`. -/
  DNSBL : Bool
  /-- The mask `FLG_UPDATE_ALWAYS` of `common.h`. -/
  FLG_UPDATE_ALWAYS : Nat
  /-- The byte order of the host (`true`: least significant byte first). -/
  host : Bool
  /-- The field `ctx->config.flags`. -/
  flags : Nat
  /-- The value of `is_in_ring_queue(ctx->filter, digest)`. -/
  is_in_ring_queue : sha_256_t → Int
  /-- The value of `dnsblc(client_address, ta)`. -/
  dnsblc : List Nat → Int
  /-- The value that `put_msg` returns. -/
  put_msg : Int
  /-- The value of `connected(&ctx->config.peer)`. -/
  connected : Int
  /-- The value that `send_oper_sync` returns. -/
  send_oper_sync : Int
  /-- The value that `logstr` returns. -/
  logstr : Int

/-- The calls that `test_tuple` makes to its collaborators, with their arguments
(`acctstr` is a macro that expands to `0` and calls nothing). -/
inductive Call where
  | is_in_ring_queue (digest : sha_256_t)
  | logstr (level : Nat) (fmt : String) (tuple : List Nat)
  | dnsblc (client_address : List Nat)
  | put_msg (mtype : Nat) (mtext : List Nat) (size : Nat) (msgflg : Nat)
  | perror (s : String)
  | connected
  | send_oper_sync (digest : sha_256_t)
deriving DecidableEq, Repr

/-- The bytes that `snprintf(str, size, "%s %s %s", a, b, c)` writes to `str`: at most
`size - 1` bytes of the formatted text, then a NUL; nothing when `size` is 0. -/
def snprintf_s_s_s (size : Nat) (a b c : List Nat) : List Nat :=
  if size = 0 then [] else (a ++ [0x20] ++ b ++ [0x20] ++ c).take (size - 1) ++ [0]

/-- The object representation of a `sha_256_t` on the host: what `memcpy(.., &digest,
sizeof(sha_256_t))` copies, the eight words in order, each in host byte order. -/
def object_bytes (host : Bool) (digest : sha_256_t) : List Nat :=
  store host 4 digest.h0 ++ store host 4 digest.h1 ++ store host 4 digest.h2 ++
  store host 4 digest.h3 ++ store host 4 digest.h4 ++ store host 4 digest.h5 ++
  store host 4 digest.h6 ++ store host 4 digest.h7

/-- The buffer `tuple` of `test_tuple` after the `snprintf`. -/
def tuple_buffer (c : Ctx) (request : gray_tuple_t) : List Nat :=
  snprintf_s_s_s c.MSGSZ request.client_address request.sender request.recipient

/-- The string that `test_tuple` fingerprints: the bytes of `tuple` before its first NUL,
which `sha256_string` hands to `sha256`. -/
def fingerprinted (c : Ctx) (request : gray_tuple_t) : List Nat :=
  (tuple_buffer c request).take (strlen (tuple_buffer c request))

/-- The result of `test_tuple`: the value returned and the calls made, in order. -/
structure Outcome where
  retvalue : Status
  calls : List Call
deriving DecidableEq, Repr

/-- The first half of `test_tuple`: the ring query and, in a `DNSBL` build, the oracle. -/
def check_status (c : Ctx) (request : gray_tuple_t) (digest : sha_256_t) : Outcome :=
  let tuple := fingerprinted c request
  if c.is_in_ring_queue digest ≠ 0 then
    { retvalue := Status.STATUS_MATCH
      calls := [Call.is_in_ring_queue digest, Call.logstr GLOG_INFO "match: %s" tuple] }
  else if c.DNSBL then
    if c.dnsblc request.client_address ≠ 0 then
      { retvalue := Status.STATUS_GRAY
        calls := [Call.is_in_ring_queue digest, Call.dnsblc request.client_address,
                  Call.logstr GLOG_INFO "graylist: %s" tuple] }
    else
      { retvalue := Status.STATUS_TRUST
        calls := [Call.is_in_ring_queue digest, Call.dnsblc request.client_address,
                  Call.logstr GLOG_INFO "trust: %s" tuple] }
  else
    { retvalue := Status.STATUS_GRAY
      calls := [Call.is_in_ring_queue digest, Call.logstr GLOG_INFO "graylist: %s" tuple] }

/-- The condition of the second half of `test_tuple`:
`retvalue == STATUS_GRAY || retvalue == STATUS_MATCH || (ctx->config.flags & FLG_UPDATE_ALWAYS)`. -/
def update_due (c : Ctx) (retvalue : Status) : Bool :=
  (retvalue == Status.STATUS_GRAY || retvalue == Status.STATUS_MATCH)
    || (c.flags &&& c.FLG_UPDATE_ALWAYS != 0)

/-- The second half of `test_tuple`: the update of the filter and of the peer. -/
def update_calls (c : Ctx) (retvalue : Status) (digest : sha_256_t) : List Call :=
  if update_due c retvalue then
    [Call.put_msg UPDATE (object_bytes c.host digest) 32 0]
      ++ (if c.put_msg < 0 then [Call.perror "update put_msg"] else [])
      ++ [Call.connected]
      ++ (if c.connected ≠ 0 then [Call.send_oper_sync digest] else [])
  else []

/-- The function `test_tuple`; `none` when `sha256_string` does not return. -/
def test_tuple (c : Ctx) (request : gray_tuple_t) : Option Outcome :=
  match sha256_string c.host (tuple_buffer c request) with
  | none => none
  | some digest =>
    let status := check_status c request digest
    some { retvalue := status.retvalue
           calls := status.calls ++ update_calls c status.retvalue digest }

/-- The `put_msg` calls of a run, as `(mtype, mtext, size, msgflg)`. -/
def put_msgs (calls : List Call) : List (Nat × List Nat × Nat × Nat) :=
  calls.filterMap (fun call =>
    match call with
    | Call.put_msg mtype mtext size msgflg => some (mtype, mtext, size, msgflg)
    | _ => none)

/-- The digests handed to `send_oper_sync` in a run. -/
def oper_syncs (calls : List Call) : List sha_256_t :=
  calls.filterMap (fun call =>
    match call with
    | Call.send_oper_sync digest => some digest
    | _ => none)

/-- The canonical serialization of a triple in the words of the spec: the three fields
joined by a single space, in the order client address, sender, recipient, with no
trailing newline. -/
def serialization (request : gray_tuple_t) : List Nat :=
  request.client_address ++ [0x20] ++ request.sender ++ [0x20] ++ request.recipient

/-- The digest byte sequence with every word laid out least significant byte first. -/
def wordsLittleEndian (H : sha_256_t) : List Nat :=
  (FIPS180.toBytesBE 4 H.h0).reverse ++ (FIPS180.toBytesBE 4 H.h1).reverse ++
  (FIPS180.toBytesBE 4 H.h2).reverse ++ (FIPS180.toBytesBE 4 H.h3).reverse ++
  (FIPS180.toBytesBE 4 H.h4).reverse ++ (FIPS180.toBytesBE 4 H.h5).reverse ++
  (FIPS180.toBytesBE 4 H.h6).reverse ++ (FIPS180.toBytesBE 4 H.h7).reverse

/-! ## `worker.c`: the accept loops and the worker -/

/-- The transport the build selects: `tcp_server`, or `udp_server` under `WORKER_PROTO_UDP`. -/
inductive Transport where
  | tcp
  | udp
deriving DecidableEq, Repr

/-- The state of the front-end: the value of `ctx->workercount_sem` and the number of
`worker` threads that were started and have not returned. -/
structure Front where
  sem : Nat
  running : Nat
deriving DecidableEq, Repr

/-- What happens to the front-end: a connection or datagram arrives at the accept loop, or
a running `worker` returns. -/
inductive Event where
  | arrival
  | worker_exit
deriving DecidableEq, Repr

/-- The call `sem_trywait`: the decremented value, or `none` (the call returns -1) at zero. -/
def sem_trywait (v : Nat) : Option Nat :=
  if 0 < v then some (v - 1) else none

/-- The call `sem_post`. -/
def sem_post (v : Nat) : Nat := v + 1

/-- One arrival in the loop of `tcp_server`: `sem_trywait`, then either the connection
is closed or `Pthread_create(NULL, &worker, ..)`. -/
def tcp_server (s : Front) : Front :=
  match sem_trywait s.sem with
  | none => s
  | some v => { sem := v, running := s.running + 1 }

/-- One arrival in the loop of `udp_server`: `Pthread_create(NULL, &worker, ..)`. -/
def udp_server (s : Front) : Front :=
  { sem := s.sem, running := s.running + 1 }

/-- The return of one `worker`: `sem_post(ctx->workercount_sem)`. -/
def worker (s : Front) : Front :=
  { sem := sem_post s.sem, running := s.running - 1 }

/-- The step relation of the front-end, as a function; a `worker` can only return
while one is running. -/
def step (t : Transport) (s : Front) : Event → Option Front
  | Event.arrival =>
    match t with
    | Transport.tcp => some (tcp_server s)
    | Transport.udp => some (udp_server s)
  | Event.worker_exit => if 0 < s.running then some (worker s) else none

/-- The state after a sequence of events. -/
def run (t : Transport) : Front → List Event → Option Front
  | s, [] => some s
  | s, e :: es =>
    match step t s e with
    | none => none
    | some s1 => run t s1 es

/-- The initial state: the semaphore at `max_workers`, no worker running. -/
def initial (max_workers : Nat) : Front := { sem := max_workers, running := 0 }

/-- The states the front-end can reach from the initial one. -/
def Reachable (t : Transport) (max_workers : Nat) (s : Front) : Prop :=
  ∃ es, run t (initial max_workers) es = some s

/-- The invariant of the worker semaphore. -/
def SemInvariant (max_workers : Nat) (s : Front) : Prop :=
  s.sem ≤ max_workers ∧ s.sem + s.running = max_workers

/-! ## Inputs for the examples -/

/-- The bytes of a string literal followed by the terminating NUL. -/
def cstr (s : String) : List Nat := s.data.map (fun ch => ch.toNat) ++ [0]

/-- The bytes of a string literal. -/
def bytes (s : String) : List Nat := s.data.map (fun ch => ch.toNat)

/-- A context: `MSGSZ = 1024`, no oracle, an empty ring, the flag clear, no peer. -/
def ctx0 (host : Bool) : Ctx :=
  { MSGSZ := 1024, DNSBL := false, FLG_UPDATE_ALWAYS := 1, host := host, flags := 0,
    is_in_ring_queue := fun _ => 0, dnsblc := fun _ => 0, put_msg := 0, connected := 0,
    send_oper_sync := 0, logstr := 0 }

/-- A context with an oracle that reports clean, a connected peer and a failing queue. -/
def ctx1 (host : Bool) : Ctx :=
  { MSGSZ := 1024, DNSBL := true, FLG_UPDATE_ALWAYS := 1, host := host, flags := 1,
    is_in_ring_queue := fun _ => 0, dnsblc := fun _ => 0, put_msg := -1, connected := 1,
    send_oper_sync := 0, logstr := 0 }

/-- The request of scenario S1 of the spec. -/
def request0 : gray_tuple_t :=
  { client_address := bytes "10.0.0.1", sender := bytes "a@x", recipient := bytes "b@y" }

/-- A request whose serialization is longer than 1023 bytes. -/
def requestLong (last : Nat) : gray_tuple_t :=
  { client_address := List.replicate 1030 0x61, sender := [0x62], recipient := [last] }

/-! # Theorems -/

/-! ## The reference definition -/

/-- The bisection returns the integer `k`-th root: `r ^ k ≤ n < (r + 1) ^ k`. -/
theorem iroot_spec (k n : Nat) : ∀ (fuel lo hi : Nat), lo ^ k ≤ n → n < hi ^ k →
    hi ≤ lo + 2 ^ fuel →
    FIPS180.iroot k n fuel lo hi ^ k ≤ n ∧ n < (FIPS180.iroot k n fuel lo hi + 1) ^ k := by
  intro fuel
  induction fuel with
  | zero =>
    intro lo hi h1 h2 h3
    simp only [FIPS180.iroot]
    refine ⟨h1, lt_of_lt_of_le h2 (Nat.pow_le_pow_left (by simpa using h3) k)⟩
  | succ f ih =>
    intro lo hi h1 h2 h3
    rw [FIPS180.iroot]
    by_cases hc : hi ≤ lo + 1
    · simp only [hc, if_true]
      exact ⟨h1, lt_of_lt_of_le h2 (Nat.pow_le_pow_left hc k)⟩
    · simp only [hc, if_false]
      have hp : 2 ^ (f + 1) = 2 * 2 ^ f := by rw [pow_succ]; omega
      by_cases hm : ((lo + hi) / 2) ^ k ≤ n
      · simp only [hm, if_true]
        exact ih _ _ hm h2 (by omega)
      · simp only [hm, if_false]
        exact ih _ _ h1 (by omega) (by omega)

/-- The value `fracRoot k p` is the integer part of `2^32` times the `k`-th root of `p`,
reduced modulo `2^32`. -/
theorem fracRoot_spec (k p : Nat) (hk : 0 < k) (hp : p < 2 ^ (5 * k)) :
    ∃ r, r ^ k ≤ p * (2 ^ 32) ^ k ∧ p * (2 ^ 32) ^ k < (r + 1) ^ k
      ∧ FIPS180.fracRoot k p = r % 2 ^ 32 := by
  have h1 : p * 2 ^ (32 * k) < (2 ^ 37) ^ k := by
    have : (2 ^ 37) ^ k = 2 ^ (5 * k) * 2 ^ (32 * k) := by
      rw [← pow_mul, ← pow_add]; congr 1; omega
    rw [this]
    exact Nat.mul_lt_mul_of_pos_right hp (by positivity)
  have h0 : 0 ^ k ≤ p * 2 ^ (32 * k) := by
    rw [Nat.zero_pow hk]; exact Nat.zero_le _
  have hs := iroot_spec k (p * 2 ^ (32 * k)) 40 0 (2 ^ 37) h0 h1 (by norm_num)
  rw [pow_mul] at hs
  refine ⟨FIPS180.iroot k (p * (2 ^ 32) ^ k) 40 0 (2 ^ 37), hs.1, hs.2, ?_⟩
  unfold FIPS180.fracRoot
  rw [pow_mul]

theorem primes_prime : ∀ p ∈ FIPS180.primes, Nat.Prime p := by
  unfold FIPS180.primes
  simp only [List.forall_mem_cons, List.not_mem_nil, false_implies, implies_true, and_true]
  norm_num

set_option maxHeartbeats 4000000 in
theorem primes_complete : ∀ n, n ≤ 311 → Nat.Prime n → n ∈ FIPS180.primes := by
  intro n hn hp
  unfold FIPS180.primes
  interval_cases n <;> first | (simp; done) | (exfalso; revert hp; norm_num)

/-- The list `primes` is the increasing list of the first sixty-four prime numbers. -/
theorem primes_spec :
    FIPS180.primes.length = 64 ∧ FIPS180.primes.Pairwise (fun a b => a < b)
      ∧ ∀ n, n ∈ FIPS180.primes ↔ (n ≤ 311 ∧ Nat.Prime n) := by
  refine ⟨rfl, by decide, fun n => ⟨fun h => ⟨?_, primes_prime n h⟩,
    fun h => primes_complete n h.1 h.2⟩⟩
  revert n
  decide

/-- The number of zero bits of the padding is the smallest non-negative solution of
`l + 1 + k ≡ 448 mod 512`. -/
theorem zeroBits_spec (l : Nat) :
    (l + 1 + FIPS180.zeroBits l) % 512 = 448
      ∧ ∀ k, (l + 1 + k) % 512 = 448 → FIPS180.zeroBits l ≤ k := by
  unfold FIPS180.zeroBits
  constructor
  · omega
  · intro k hk; omega

/-- For a message of whole bytes the padding is a whole number of bytes: `k = 8 * (k / 8) + 7`. -/
theorem zeroBits_bytes (n : Nat) :
    FIPS180.zeroBits (8 * n) = 8 * (FIPS180.zeroBits (8 * n) / 8) + 7 := by
  unfold FIPS180.zeroBits
  omega

/-- On 32-bit words the complement flips every bit. -/
theorem compl_eq_xor (x : Nat) (h : x < 2 ^ 32) : FIPS180.compl x = x ^^^ (2 ^ 32 - 1) := by
  unfold FIPS180.compl
  apply Nat.eq_of_testBit_eq
  intro i
  have h1 : 2 ^ 32 - 1 - x = 2 ^ 32 - (x + 1) := by omega
  rw [h1, Nat.testBit_two_pow_sub_succ h, Nat.testBit_xor, Nat.testBit_two_pow_sub_one]
  by_cases hi : i < 32
  · simp [hi]
  · have hx : x.testBit i = false := by
      apply Nat.testBit_lt_two_pow
      exact lt_of_lt_of_le h (Nat.pow_le_pow_right (by decide) (by omega))
    simp [hi, hx]

/-- The reference definition gives the digests that FIPS 180-4 publishes for "abc" and for
the 56-byte message. -/
theorem reference_test_vectors :
    FIPS180.digestBytes (FIPS180.SHA256 (bytes "abc"))
      = [0xba, 0x78, 0x16, 0xbf, 0x8f, 0x01, 0xcf, 0xea, 0x41, 0x41, 0x40, 0xde, 0x5d, 0xae, 0x22,
         0x23, 0xb0, 0x03, 0x61, 0xa3, 0x96, 0x17, 0x7a, 0x9c, 0xb4, 0x10, 0xff, 0x61, 0xf2, 0x00,
         0x15, 0xad]
    ∧ FIPS180.digestBytes
        (FIPS180.SHA256 (bytes "abcdbcdecdefdefgefghfghighijhijkijkljklmklmnlmnomnopnopq"))
      = [0x24, 0x8d, 0x6a, 0x61, 0xd2, 0x06, 0x38, 0xb8, 0xe5, 0xc0, 0x26, 0x93, 0x0c, 0x3e, 0x60,
         0x39, 0xa3, 0x3c, 0xe4, 0x59, 0x64, 0xff, 0x21, 0x67, 0xf6, 0xec, 0xed, 0xd4, 0x19, 0xdb,
         0x06, 0xc1] := by
  refine ⟨by decide!, by decide!⟩

/-! ## Lemmas on `sha256` -/

theorem new_size_of_eq (size : Nat) (h : size < 2305843009213693952) :
    new_size_of size = 64 * ((size + 8) / 64 + 1) := by
  unfold new_size_of u64; omega

theorem store_length (host : Bool) (n v : Nat) : (store host n v).length = n := by
  induction n generalizing v with
  | zero => rfl
  | succ n ih => cases host <;> simp [store, ih]

theorem store_lt (host : Bool) (n v : Nat) : ∀ b ∈ store host n v, b < 256 := by
  induction n generalizing v with
  | zero => simp [store]
  | succ n ih =>
    intro b hb
    cases host <;> simp [store] at hb <;> rcases hb with hb | hb
    · exact ih _ _ hb
    · omega
    · omega
    · exact ih _ _ hb

theorem store_false_eq_reverse (n v : Nat) : store false n v = (store true n v).reverse := by
  induction n generalizing v with
  | zero => rfl
  | succ n ih => simp [store, ih]

theorem load_false_eq (bs : List Nat) : load false bs = load true bs.reverse := by
  simp only [load, if_true, Bool.false_eq_true, if_false, List.foldr_reverse]
  congr 1
  funext a b
  omega

theorem load_store_true (bs : List Nat) (h : ∀ b ∈ bs, b < 256) :
    store true bs.length (load true bs) = bs := by
  induction bs with
  | nil => rfl
  | cons b bs ih =>
    have hb : b < 256 := h b (List.mem_cons_self _ _)
    have ih := ih (fun x hx => h x (List.mem_cons_of_mem _ hx))
    simp only [load, if_true, List.foldr_cons, List.length_cons, store] at ih ⊢
    have h1 : (b + 256 * List.foldr (fun b acc => b + 256 * acc) 0 bs) % 256 = b := by omega
    have h2 : (b + 256 * List.foldr (fun b acc => b + 256 * acc) 0 bs) / 256 = List.foldr (fun b acc => b + 256 * acc) 0 bs := by omega
    rw [h1, h2, ih]

theorem little_endian_eq (host : Bool) : little_endian host = host := by
  cases host <;> rfl

theorem swap4_eq_reverse : ∀ (l : List Nat), l.length = 4 →
    swap_bytes (swap_bytes l 0 3) 1 2 = l.reverse
  | [_, _, _, _], _ => rfl

theorem swap8_eq_reverse : ∀ (l : List Nat), l.length = 8 →
    swap_bytes (swap_bytes (swap_bytes (swap_bytes l 0 7) 1 6) 2 5) 3 4 = l.reverse
  | [_, _, _, _, _, _, _, _], _ => rfl

theorem load_false_eq_ofBytesBE (bs : List Nat) : load false bs = FIPS180.ofBytesBE bs := by
  simp only [load, Bool.false_eq_true, if_false, FIPS180.ofBytesBE]
  congr 1
  funext a b
  omega

theorem store_false_eq_toBytesBE (n v : Nat) : store false n v = FIPS180.toBytesBE n v := by
  induction n generalizing v with
  | zero => rfl
  | succ n ih =>
    simp only [store, Bool.false_eq_true, if_false, ih, FIPS180.toBytesBE, List.range_succ,
      List.map_append, List.map_cons, List.map_nil]
    congr 1
    · apply List.map_congr_left
      intro i hi
      have hi : i < n := List.mem_range.mp hi
      have : n + 1 - 1 - i = (n - 1 - i) + 1 := by omega
      rw [this, pow_succ, Nat.div_div_eq_div_mul, Nat.mul_comm]
    · simp

/-- Reading a word in host order and converting it gives its big-endian value. -/
theorem convert32_load (host : Bool) (bs : List Nat) (hlen : bs.length = 4)
    (hb : ∀ b ∈ bs, b < 256) :
    p_convert_int32_to_big_endian host (load host bs) = FIPS180.ofBytesBE bs := by
  cases host
  · simp only [p_convert_int32_to_big_endian, little_endian_eq, Bool.false_eq_true, if_false,
      convert_int32_big_endian, load_false_eq_ofBytesBE]
  · have h1 : store true 4 (load true bs) = bs := by
      have := load_store_true bs hb
      rwa [hlen] at this
    simp only [p_convert_int32_to_big_endian, little_endian_eq, if_true,
      convert_int32_little_endian, h1, swap4_eq_reverse bs hlen, ← load_false_eq,
      load_false_eq_ofBytesBE]

/-- The bytes of `tmp_size` after the conversion are the big-endian encoding of its value. -/
theorem store_convert64 (host : Bool) (v : Nat) :
    store host 8 (p_convert_int64_to_big_endian host v) = FIPS180.toBytesBE 8 v := by
  cases host
  · simp only [p_convert_int64_to_big_endian, little_endian_eq, Bool.false_eq_true, if_false,
      convert_int64_big_endian, store_false_eq_toBytesBE]
  · have hl : (store true 8 v).reverse.length = 8 := by simp [store_length]
    have h1 := load_store_true (store true 8 v).reverse
      (fun b hb => store_lt true 8 v b (List.mem_reverse.mp hb))
    rw [hl] at h1
    have h2 : p_convert_int64_to_big_endian true v = load true (store true 8 v).reverse := by
      simp only [p_convert_int64_to_big_endian, little_endian_eq, if_true,
        convert_int64_little_endian, swap8_eq_reverse _ (store_length true 8 v)]
    rw [h2, h1, ← store_false_eq_reverse, store_false_eq_toBytesBE]

theorem init_buffer_eq (message : List Nat) (h : message.length < 2305843009213693952) :
    init_buffer message =
      message ++ [0x80] ++ List.replicate (new_size_of message.length - message.length - 1) 0 := by
  have hn := new_size_of_eq message.length h
  have h1 : new_size_of message.length - message.length
      = (new_size_of message.length - message.length - 1) + 1 := by omega
  simp only [init_buffer, List.drop_replicate]
  rw [h1, List.replicate_succ]
  simp

theorem lengthLoop_spec (pre : List Nat) : ∀ (rest done tl : List Nat) (fuel : Nat),
    rest.length = tl.length → rest.length < fuel →
    pre.length + done.length + rest.length < 4294967296 →
    lengthLoop (pre.length + done.length + rest.length) (done ++ tl) fuel
      (pre.length + done.length) done.length (pre ++ done ++ rest) = some (pre ++ done ++ tl) := by
  intro rest
  induction rest with
  | nil =>
    intro done tl fuel hl hf hb
    cases tl with
    | cons _ _ => simp at hl
    | nil =>
      cases fuel with
      | zero => simp at hf
      | succ f => simp [lengthLoop]
  | cons r rest ih =>
    intro done tl fuel hl hf hb
    cases tl with
    | nil => simp at hl
    | cons b tl =>
      cases fuel with
      | zero => simp at hf
      | succ f =>
        simp only [List.length_cons] at hl hf hb
        have ih := ih (done ++ [b]) tl f (by omega) (by omega)
          (by simp only [List.length_append, List.length_cons, List.length_nil]; omega)
        simp only [List.length_append, List.length_cons, List.length_nil, List.append_assoc,
          List.singleton_append, zero_add] at ih
        have hi : pre.length + done.length < pre.length + done.length + (rest.length + 1) := by
          omega
        have e1 : u32 (pre.length + done.length + 1) = pre.length + (done.length + 1) := by
          unfold u32; omega
        have e2 : u32 (done.length + 1) = done.length + 1 := by unfold u32; omega
        have e3 : (pre ++ (done ++ r :: rest)).set (pre.length + done.length) b
            = pre ++ (done ++ b :: rest) := by
          rw [List.set_append_right _ _ (by omega)]
          congr 1
          rw [List.set_append_right _ _ (by omega)]
          simp
        have e4 : pre.length + done.length + (rest.length + 1)
            = pre.length + (done.length + 1) + rest.length := by omega
        simp only [lengthLoop, List.length_cons, hi, if_true, List.getElem?_append_right,
          le_refl, Nat.sub_self, List.getElem?_cons_zero, e1, e2, e3, List.append_assoc]
        rw [e4]
        exact ih

theorem toBytesBE_length (n v : Nat) : (FIPS180.toBytesBE n v).length = n := by
  simp [FIPS180.toBytesBE]

/-- With a padded length below `2^32` the length loop ends and leaves the padded message. -/
theorem padded_buffer_eq (fuel : Nat) (host : Bool) (message : List Nat)
    (hf : 9 ≤ fuel) (hlen : message.length < 4294967224) :
    padded_buffer fuel host message = some (message ++ [0x80] ++
      List.replicate (new_size_of message.length - message.length - 9) 0 ++
      FIPS180.toBytesBE 8 (8 * message.length)) := by
  have hn := new_size_of_eq message.length (by omega)
  have hi := init_buffer_eq message (by omega)
  have hz : new_size_of message.length - message.length - 1
      = (new_size_of message.length - message.length - 9) + 8 := by omega
  rw [hz, List.replicate_add] at hi
  have hs := lengthLoop_spec
    (message ++ [0x80] ++ List.replicate (new_size_of message.length - message.length - 9) 0)
    (List.replicate 8 0) [] (FIPS180.toBytesBE 8 (8 * message.length)) fuel
    (by simp [toBytesBE_length]) (by simp; omega)
    (by simp only [List.length_append, List.length_replicate, List.length_cons, List.length_nil]
        omega)
  have hsz : (message ++ [0x80] ++ List.replicate (new_size_of message.length - message.length - 9) 0).length
      + ([] : List Nat).length + (List.replicate 8 0).length = new_size_of message.length := by
    simp only [List.length_append, List.length_replicate, List.length_cons, List.length_nil]
    omega
  have hst : (message ++ [0x80] ++ List.replicate (new_size_of message.length - message.length - 9) 0).length
      + ([] : List Nat).length = u32 (u64 (new_size_of message.length + 18446744073709551616 - 8)) := by
    simp only [List.length_append, List.length_replicate, List.length_cons, List.length_nil]
    unfold u32 u64
    omega
  rw [hsz, hst] at hs
  simp only [List.nil_append, List.append_nil, List.length_nil] at hs
  have hv : u64 (message.length * 8) = 8 * message.length := by unfold u64; omega
  simp only [padded_buffer, store_convert64, hv, hi]
  rw [← List.append_assoc]
  exact hs

theorem foldl_set_range (f : Nat → Nat) (n : Nat) (w0 : List Nat) (h : n ≤ w0.length) :
    (List.range n).foldl (fun w k => w.set k (f k)) w0 = (List.range n).map f ++ w0.drop n := by
  induction n with
  | zero => simp
  | succ n ih =>
    have ih := ih (by omega)
    rw [List.range_succ, List.foldl_append, ih]
    simp only [List.foldl_cons, List.foldl_nil, List.map_append, List.map_cons, List.map_nil]
    rw [List.set_append_right _ _ (by simp)]
    have hd : List.drop n w0 = w0[n] :: List.drop (n + 1) w0 := List.drop_eq_getElem_cons (by omega)
    rw [hd]
    simp only [List.length_map, List.length_range, Nat.sub_self, List.set_cons_zero,
      List.append_assoc, List.singleton_append]

theorem W_length (padded : List Nat) (i t : Nat) : (FIPS180.W padded i t).length = t := by
  induction t with
  | zero => rfl
  | succ t ih => simp [FIPS180.W, ih]

theorem W_le16 (padded : List Nat) (i t : Nat) (h : t ≤ 16) :
    FIPS180.W padded i t = (List.range t).map (FIPS180.M padded i) := by
  induction t with
  | zero => rfl
  | succ t ih =>
    have ht : t < 16 := by omega
    simp [FIPS180.W, ih (by omega), ht, List.range_succ]

theorem init_w_eq (host : Bool) (iter : List Nat) (k : Nat)
    (hlen : 64 * k + 64 ≤ iter.length) (hb : ∀ b ∈ iter, b < 256) :
    init_w host iter (64 * k) = FIPS180.W iter k 16 ++ List.replicate 48 0 := by
  unfold init_w
  rw [List.foldl_map]
  simp only [Nat.mul_div_cancel_left _ (show 0 < 4 by decide)]
  rw [foldl_set_range (fun t => p_convert_int32_to_big_endian host
        (load host ((iter.drop (64 * k + 4 * t)).take 4))) 16 _ (by simp)]
  rw [W_le16 _ _ _ (le_refl _)]
  congr 1
  · apply List.map_congr_left
    intro t ht
    have ht : t < 16 := List.mem_range.mp ht
    rw [convert32_load]
    · rfl
    · simp only [List.length_take, List.length_drop]; omega
    · intro b hb1
      exact hb b (List.mem_of_mem_drop (List.mem_of_mem_take hb1))

theorem rotate_right_eq (x n : Nat) : rotate_right x n = FIPS180.ROTR n x := rfl

theorem u32_add (x y : Nat) : u32 (x + y) = FIPS180.add x y := rfl

theorem add_comm_w (x y : Nat) : FIPS180.add x y = FIPS180.add y x := by
  simp only [FIPS180.add, Nat.add_comm]

theorem extend_w_step (Ws zs : List Nat) (t : Nat) (z : Nat) (hW : Ws.length = t) (ht : 16 ≤ t) :
    (Ws ++ z :: zs).set t
      (u32 (u32 (u32 ((Ws ++ z :: zs).getD (t - 16) 0 +
        (rotate_right ((Ws ++ z :: zs).getD (t - 15) 0) 7 ^^^
          rotate_right ((Ws ++ z :: zs).getD (t - 15) 0) 18 ^^^
          ((Ws ++ z :: zs).getD (t - 15) 0 >>> 3))) + (Ws ++ z :: zs).getD (t - 7) 0) +
        (rotate_right ((Ws ++ z :: zs).getD (t - 2) 0) 17 ^^^
          rotate_right ((Ws ++ z :: zs).getD (t - 2) 0) 19 ^^^
          ((Ws ++ z :: zs).getD (t - 2) 0 >>> 10))))
    = (Ws ++ [FIPS180.add (FIPS180.add (FIPS180.add (FIPS180.sigma1 (Ws.getD (t - 2) 0))
          (Ws.getD (t - 7) 0)) (FIPS180.sigma0 (Ws.getD (t - 15) 0))) (Ws.getD (t - 16) 0)]) ++ zs := by
  have g : ∀ m, m < t → (Ws ++ z :: zs).getD m 0 = Ws.getD m 0 := by
    intro m hm
    rw [List.getD_append _ _ _ _ (by omega)]
  rw [g _ (by omega), g _ (by omega), g _ (by omega), g _ (by omega)]
  rw [List.set_append_right _ _ (by omega)]
  simp only [hW, Nat.sub_self, List.set_cons_zero, List.append_assoc, List.singleton_append]
  congr 2
  simp only [rotate_right_eq, FIPS180.sigma0, FIPS180.sigma1, FIPS180.SHR, FIPS180.add, u32]
  omega

theorem extend_w_eq (padded : List Nat) (i : Nat) (n : Nat) (hn : n ≤ 48) :
    (List.range' 16 n).foldl
      (fun w j =>
        let s0 := rotate_right (w.getD (j - 15) 0) 7 ^^^ rotate_right (w.getD (j - 15) 0) 18
                    ^^^ (w.getD (j - 15) 0 >>> 3)
        let s1 := rotate_right (w.getD (j - 2) 0) 17 ^^^ rotate_right (w.getD (j - 2) 0) 19
                    ^^^ (w.getD (j - 2) 0 >>> 10)
        w.set j (u32 (u32 (u32 (w.getD (j - 16) 0 + s0) + w.getD (j - 7) 0) + s1)))
      (FIPS180.W padded i 16 ++ List.replicate 48 0)
    = FIPS180.W padded i (16 + n) ++ List.replicate (48 - n) 0 := by
  induction n with
  | zero => rfl
  | succ n ih =>
    have ih := ih (by omega)
    rw [List.range'_concat, List.foldl_append, ih]
    have h1 : 48 - n = (48 - (n + 1)) + 1 := by omega
    rw [h1, List.replicate_succ]
    simp only [List.foldl_cons, List.foldl_nil, Nat.one_mul]
    rw [extend_w_step _ _ _ _ (W_length _ _ _) (by omega)]
    have h2 : ¬ (16 + n < 16) := by omega
    have h3 : 16 + (n + 1) = (16 + n) + 1 := by omega
    rw [h3]
    simp only [FIPS180.W, h2, if_false]

theorem maj_eq (a b c : Nat) :
    (a &&& b) ^^^ (b &&& c) ^^^ (c &&& a) = FIPS180.Maj a b c := by
  unfold FIPS180.Maj
  rw [Nat.land_comm c a, Nat.xor_assoc, Nat.xor_comm (b &&& c), ← Nat.xor_assoc]

theorem ch_eq (e f g : Nat) :
    (e &&& f) ^^^ ((4294967295 - e) &&& g) = FIPS180.Ch e f g := rfl

/-- The table of the code holds the constants that the standard defines. -/
theorem round_constants_eq : ROUND_CONSTANTS = FIPS180.K := by decide!

/-- The initial digest of the code is the initial hash value that the standard defines. -/
theorem default_sha256_eq : DEFAULT_SHA256 = FIPS180.H0 := by decide!

theorem main_step_eq (w : List Nat) (d : sha_256_t) (j : Nat) :
    toVars (main_step w d j) = FIPS180.step w (toVars d) j := by
  simp only [main_step, FIPS180.step, toVars, maj_eq, ch_eq, rotate_right_eq, u32_add,
    FIPS180.Sigma0, FIPS180.Sigma1]
  rw [round_constants_eq, add_comm_w (FIPS180.add _ (FIPS180.Maj _ _ _))]

theorem main_loop_eq (w : List Nat) (l : List Nat) (d : sha_256_t) :
    toVars (l.foldl (main_step w) d) = l.foldl (FIPS180.step w) (toVars d) := by
  induction l generalizing d with
  | nil => rfl
  | cons j l ih => simp only [List.foldl_cons, ih, main_step_eq]

theorem process_block_eq (host : Bool) (iter : List Nat) (k : Nat) (digest : sha_256_t)
    (hlen : 64 * k + 64 ≤ iter.length) (hb : ∀ b ∈ iter, b < 256) :
    process_block host iter (64 * k) digest = FIPS180.compress iter digest k := by
  have hw : extend_w (init_w host iter (64 * k)) = FIPS180.W iter k 64 := by
    rw [init_w_eq host iter k hlen hb]
    have := extend_w_eq iter k 48 (le_refl _)
    simpa [extend_w] using this
  have hl := main_loop_eq (FIPS180.W iter k 64) (List.range 64) digest
  simp only [process_block, FIPS180.compress, hw]
  have hv : (List.range 64).foldl (FIPS180.step (FIPS180.W iter k 64))
      { a := digest.h0, b := digest.h1, c := digest.h2, d := digest.h3,
        e := digest.h4, f := digest.h5, g := digest.h6, h := digest.h7 }
      = toVars ((List.range 64).foldl (main_step (FIPS180.W iter k 64)) digest) := hl.symm
  rw [hv]
  simp only [toVars, u32_add, add_comm_w digest.h0, add_comm_w digest.h1, add_comm_w digest.h2,
    add_comm_w digest.h3, add_comm_w digest.h4, add_comm_w digest.h5, add_comm_w digest.h6,
    add_comm_w digest.h7]

theorem blockLoop_run (host : Bool) (iter : List Nat) (N : Nat) (hN : 64 * N < 4294967296) :
    ∀ (n k fuel : Nat) (digest : sha_256_t), k + n = N → n < fuel →
      blockLoop host iter (64 * N) fuel (64 * k) digest
        = some ((List.range' k n).foldl (fun d j => process_block host iter (64 * j) d) digest) := by
  intro n
  induction n with
  | zero =>
    intro k fuel digest hk hf
    cases fuel with
    | zero => omega
    | succ f =>
      have : ¬ (64 * k < 64 * N) := by omega
      simp [blockLoop, this]
  | succ n ih =>
    intro k fuel digest hk hf
    cases fuel with
    | zero => omega
    | succ f =>
      have h1 : 64 * k < 64 * N := by omega
      have h2 : u32 (64 * k + 64) = 64 * (k + 1) := by unfold u32; omega
      simp only [blockLoop, h1, if_true, h2, List.range'_succ, List.foldl_cons]
      exact ih (k + 1) f _ (by omega) (by omega)

theorem fold_process_block_eq (host : Bool) (iter : List Nat) (N : Nat)
    (hlen : iter.length = 64 * N) (hb : ∀ b ∈ iter, b < 256) :
    ∀ (n k : Nat) (digest : sha_256_t), k + n ≤ N →
      (List.range' k n).foldl (fun d j => process_block host iter (64 * j) d) digest
        = (List.range' k n).foldl (FIPS180.compress iter) digest := by
  intro n
  induction n with
  | zero => intro k digest _; simp only [List.range', List.foldl_nil]
  | succ n ih =>
    intro k digest hk
    simp only [List.range'_succ, List.foldl_cons]
    rw [process_block_eq host iter k digest (by omega) hb]
    exact ih (k + 1) _ (by omega)

theorem toBytesBE_lt (n v : Nat) : ∀ b ∈ FIPS180.toBytesBE n v, b < 256 := by
  intro b hb
  simp only [FIPS180.toBytesBE, List.mem_map] at hb
  obtain ⟨i, _, rfl⟩ := hb
  exact Nat.mod_lt _ (by decide)

theorem pad_eq (message : List Nat) (hlen : message.length < 2305843009213693952) :
    FIPS180.pad message = message ++ [0x80] ++
      List.replicate (new_size_of message.length - message.length - 9) 0 ++
      FIPS180.toBytesBE 8 (8 * message.length) := by
  have hn := new_size_of_eq message.length hlen
  have : FIPS180.zeroBits (8 * message.length) / 8
      = new_size_of message.length - message.length - 9 := by
    unfold FIPS180.zeroBits; omega
  simp only [FIPS180.pad, this]

theorem pad_length (message : List Nat) (hlen : message.length < 2305843009213693952) :
    (FIPS180.pad message).length = new_size_of message.length := by
  have hn := new_size_of_eq message.length hlen
  rw [pad_eq message hlen]
  simp only [List.length_append, List.length_replicate, List.length_cons, List.length_nil,
    toBytesBE_length]
  omega

theorem pad_lt (message : List Nat) (hb : ∀ b ∈ message, b < 256) :
    ∀ b ∈ FIPS180.pad message, b < 256 := by
  intro b h
  simp only [FIPS180.pad, List.mem_append, List.mem_singleton, List.mem_replicate] at h
  rcases h with ((h | h) | h) | h
  · exact hb b h
  · omega
  · omega
  · exact toBytesBE_lt _ _ b h

/-- With enough fuel and a message shorter than `2^32 - 72` bytes both loops of `sha256`
  terminate: the result is the fold of `process_block` over the blocks of the padded message. -/
theorem sha256_fuel_run (fuel : Nat) (host : Bool) (message : List Nat)
    (hf : new_size_of message.length / 64 + 9 ≤ fuel) (hlen : message.length < 4294967224) :
    sha256_fuel fuel host message = some ((List.range ((message.length + 8) / 64 + 1)).foldl
      (fun d j => process_block host (FIPS180.pad message) (64 * j) d) DEFAULT_SHA256) := by
  have hn := new_size_of_eq message.length (by omega)
  have hp := pad_eq message (by omega)
  have hbuf := padded_buffer_eq fuel host message (by omega) hlen
  rw [← hp] at hbuf
  simp only [sha256_fuel, hbuf]
  have hloop := blockLoop_run host (FIPS180.pad message) ((message.length + 8) / 64 + 1)
    (by omega) ((message.length + 8) / 64 + 1) 0 fuel DEFAULT_SHA256 (by omega) (by omega)
  rw [hn]
  simp only [Nat.mul_zero] at hloop
  rw [hloop, ← List.range_eq_range']

/-- With enough fuel and a message of fewer than `2^32 - 72` bytes, `sha256` returns the
FIPS 180-4 hash value, on a host of either byte order. -/
theorem sha256_fuel_eq (fuel : Nat) (host : Bool) (message : List Nat)
    (hf : new_size_of message.length / 64 + 9 ≤ fuel)
    (hlen : message.length < 4294967224) (hb : ∀ b ∈ message, b < 256) :
    sha256_fuel fuel host message = some (FIPS180.SHA256 message) := by
  have hn := new_size_of_eq message.length (by omega)
  have hpl := pad_length message (by omega)
  rw [sha256_fuel_run fuel host message hf hlen]
  have hfold := fold_process_block_eq host (FIPS180.pad message) ((message.length + 8) / 64 + 1)
    (by rw [hpl, hn]) (pad_lt message hb) ((message.length + 8) / 64 + 1) 0 DEFAULT_SHA256
    (by omega)
  rw [← List.range_eq_range'] at hfold
  rw [hfold]
  have hN : (FIPS180.pad message).length / 64 = (message.length + 8) / 64 + 1 := by
    rw [hpl, hn]; omega
  simp only [FIPS180.SHA256, hN, default_sha256_eq]

theorem sha256_eq (host : Bool) (message : List Nat)
    (hlen : message.length < 4294967224) (hb : ∀ b ∈ message, b < 256) :
    sha256 host message = some (FIPS180.SHA256 message) :=
  sha256_fuel_eq _ host message (le_refl _) hlen hb

theorem sha256_returns (host : Bool) (message : List Nat) (hlen : message.length < 4294967224) :
    ∃ d, sha256 host message = some d :=
  ⟨_, sha256_fuel_run _ host message (le_refl _) hlen⟩

/-! ## Lemmas on C strings and on `test_tuple` -/

theorem take_strlen (s : List Nat) : s.take (strlen s) = s.takeWhile (fun c => c != 0) := by
  unfold strlen
  induction s with
  | nil => rfl
  | cons a s ih =>
    by_cases h : (a != 0) = true
    · simp [List.takeWhile_cons, h, ih]
    · simp [List.takeWhile_cons, h]

theorem takeWhile_terminated (l rest : List Nat) (h : ∀ c ∈ l, 0 < c ∧ c < 256) :
    (l ++ 0 :: rest).takeWhile (fun c => c != 0) = l := by
  induction l with
  | nil => simp
  | cons a l ih =>
    have ha : 0 < a := (h a (List.mem_cons_self _ _)).1
    have hne : (a != 0) = true := by simp; omega
    simp only [List.cons_append, List.takeWhile_cons, hne, if_true]
    rw [ih (fun c hc => h c (List.mem_cons_of_mem _ hc))]

theorem takeWhile_length_le (l : List Nat) :
    ((l ++ [0]).takeWhile (fun c => c != 0)).length ≤ l.length := by
  induction l with
  | nil => simp
  | cons a l ih =>
    by_cases h : (a != 0) = true
    · simp only [List.cons_append, List.takeWhile_cons, h, if_true, List.length_cons]
      omega
    · simp [List.takeWhile_cons, h]

theorem serialization_cstring (request : gray_tuple_t) (hwf : request.WellFormed) :
    IsCString (serialization request) := by
  obtain ⟨h1, h2, h3⟩ := hwf
  intro c hc
  simp only [serialization, List.mem_append, List.mem_singleton] at hc
  rcases hc with (((hc | hc) | hc) | hc) | hc
  · exact h1 c hc
  · omega
  · exact h2 c hc
  · omega
  · exact h3 c hc

theorem tuple_buffer_eq (c : Ctx) (request : gray_tuple_t) (h0 : 0 < c.MSGSZ) :
    tuple_buffer c request = (serialization request).take (c.MSGSZ - 1) ++ [0] := by
  have : ¬ (c.MSGSZ = 0) := by omega
  simp only [tuple_buffer, snprintf_s_s_s, this, if_false, serialization]

theorem fingerprinted_length (c : Ctx) (request : gray_tuple_t) (h0 : 0 < c.MSGSZ) :
    (fingerprinted c request).length ≤ c.MSGSZ - 1 := by
  unfold fingerprinted
  rw [take_strlen, tuple_buffer_eq c request h0]
  have h1 := takeWhile_length_le ((serialization request).take (c.MSGSZ - 1))
  have h2 : ((serialization request).take (c.MSGSZ - 1)).length ≤ c.MSGSZ - 1 := by
    simp only [List.length_take]; omega
  omega

theorem fingerprinted_eq (c : Ctx) (request : gray_tuple_t) (h0 : 0 < c.MSGSZ)
    (hwf : request.WellFormed) :
    fingerprinted c request = (serialization request).take (c.MSGSZ - 1) := by
  unfold fingerprinted
  rw [take_strlen, tuple_buffer_eq c request h0]
  apply takeWhile_terminated
  intro b hb
  exact serialization_cstring request hwf b (List.mem_of_mem_take hb)

/-- A request whose serialization does not fit the buffer is not fingerprinted whole, for
every value of `MSGSZ`. -/
theorem fingerprinted_truncates (c : Ctx) (request : gray_tuple_t) (h0 : 0 < c.MSGSZ)
    (hlong : c.MSGSZ ≤ (serialization request).length) :
    fingerprinted c request ≠ serialization request := by
  intro h
  have hl := fingerprinted_length c request h0
  rw [h] at hl
  omega

theorem sha256_string_eq (c : Ctx) (request : gray_tuple_t) :
    sha256_string c.host (tuple_buffer c request) = sha256 c.host (fingerprinted c request) := rfl

theorem digest_exists (c : Ctx) (request : gray_tuple_t)
    (h0 : 0 < c.MSGSZ) (hM : c.MSGSZ ≤ 4294967224) :
    ∃ d, sha256_string c.host (tuple_buffer c request) = some d := by
  have hl := fingerprinted_length c request h0
  exact sha256_returns c.host (fingerprinted c request) (by omega)

theorem test_tuple_eq (c : Ctx) (request : gray_tuple_t) (d : sha_256_t)
    (hd : sha256_string c.host (tuple_buffer c request) = some d) :
    test_tuple c request = some
      { retvalue := (check_status c request d).retvalue
        calls := (check_status c request d).calls
          ++ update_calls c (check_status c request d).retvalue d } := by
  simp only [test_tuple, hd]

theorem check_status_put_msgs (c : Ctx) (request : gray_tuple_t) (d : sha_256_t) :
    put_msgs (check_status c request d).calls = []
      ∧ oper_syncs (check_status c request d).calls = [] := by
  unfold check_status
  by_cases h1 : c.is_in_ring_queue d = 0 <;> by_cases h2 : c.DNSBL = true <;>
    by_cases h3 : c.dnsblc request.client_address = 0 <;>
    simp [h1, h2, h3, put_msgs, oper_syncs]

theorem update_calls_put_msgs (c : Ctx) (s : Status) (d : sha_256_t) :
    put_msgs (update_calls c s d)
      = if update_due c s then [(UPDATE, object_bytes c.host d, 32, 0)] else [] := by
  unfold update_calls
  by_cases h1 : update_due c s = true <;> by_cases h2 : c.put_msg < 0 <;>
    by_cases h3 : c.connected = 0 <;> simp [h1, h2, h3, put_msgs]

theorem update_calls_oper_syncs (c : Ctx) (s : Status) (d : sha_256_t) :
    oper_syncs (update_calls c s d)
      = if update_due c s = true ∧ c.connected ≠ 0 then [d] else [] := by
  unfold update_calls
  by_cases h1 : update_due c s = true <;> by_cases h2 : c.put_msg < 0 <;>
    by_cases h3 : c.connected = 0 <;> simp [h1, h2, h3, oper_syncs]

theorem update_due_iff (c : Ctx) (s : Status) :
    update_due c s = true ↔
      (s = Status.STATUS_GRAY ∨ s = Status.STATUS_MATCH ∨ c.flags &&& c.FLG_UPDATE_ALWAYS ≠ 0) := by
  unfold update_due
  cases s <;> simp

theorem put_msgs_append (l1 l2 : List Call) : put_msgs (l1 ++ l2) = put_msgs l1 ++ put_msgs l2 := by
  simp [put_msgs, List.filterMap_append]

theorem oper_syncs_append (l1 l2 : List Call) :
    oper_syncs (l1 ++ l2) = oper_syncs l1 ++ oper_syncs l2 := by
  simp [oper_syncs, List.filterMap_append]

theorem object_bytes_length (host : Bool) (d : sha_256_t) : (object_bytes host d).length = 32 := by
  simp [object_bytes, store_length]

theorem object_bytes_false (d : sha_256_t) : object_bytes false d = FIPS180.digestBytes d := by
  simp only [object_bytes, FIPS180.digestBytes, store_false_eq_toBytesBE]

theorem object_bytes_true (d : sha_256_t) : object_bytes true d = wordsLittleEndian d := by
  have h : ∀ v, store true 4 v = (FIPS180.toBytesBE 4 v).reverse := by
    intro v
    rw [← store_false_eq_toBytesBE, store_false_eq_reverse, List.reverse_reverse]
  simp only [object_bytes, wordsLittleEndian, h]

/-! ## Lemmas on the front-end -/

theorem tcp_step_invariant (m : Nat) (s s1 : Front) (e : Event)
    (h : SemInvariant m s) (hs : step Transport.tcp s e = some s1) : SemInvariant m s1 := by
  obtain ⟨h1, h2⟩ := h
  cases e with
  | arrival =>
    simp only [step, Option.some.injEq] at hs
    subst hs
    unfold tcp_server sem_trywait
    by_cases hv : 0 < s.sem
    · simp only [hv, if_true, SemInvariant]; omega
    · simp only [hv, if_false, SemInvariant]; omega
  | worker_exit =>
    simp only [step] at hs
    by_cases hr : 0 < s.running
    · simp only [hr, if_true, Option.some.injEq] at hs
      subst hs
      simp only [worker, sem_post, SemInvariant]; omega
    · simp [hr] at hs

theorem tcp_run_invariant (m : Nat) (es : List Event) :
    ∀ (s s1 : Front), SemInvariant m s → run Transport.tcp s es = some s1 → SemInvariant m s1 := by
  induction es with
  | nil =>
    intro s s1 h hr
    simp only [run, Option.some.injEq] at hr
    exact hr ▸ h
  | cons e es ih =>
    intro s s1 h hr
    simp only [run] at hr
    cases hs : step Transport.tcp s e with
    | none => simp [hs] at hr
    | some s2 =>
      simp only [hs] at hr
      exact ih s2 s1 (tcp_step_invariant m s s2 e h hs) hr

/-- In the `tcp_server` build the semaphore invariant holds in every reachable state, and
the semaphore is back at `max_workers` whenever no worker runs. -/
theorem tcp_server_invariant (max_workers : Nat) (s : Front)
    (h : Reachable Transport.tcp max_workers s) :
    SemInvariant max_workers s ∧ (s.running = 0 → s.sem = max_workers) := by
  obtain ⟨es, hes⟩ := h
  have hi := tcp_run_invariant max_workers es (initial max_workers) s
    (by simp [SemInvariant, initial]) hes
  refine ⟨hi, fun hz => ?_⟩
  have := hi.2
  omega

/-! ## Fuel -/

theorem lengthLoop_mono (new_size : Nat) (iter : List Nat) :
    ∀ (fuel i j : Nat) (buf r : List Nat), lengthLoop new_size iter fuel i j buf = some r →
      lengthLoop new_size iter (fuel + 1) i j buf = some r := by
  intro fuel
  induction fuel with
  | zero => intro i j buf r h; simp [lengthLoop] at h
  | succ f ih =>
    intro i j buf r h
    rw [lengthLoop] at h ⊢
    by_cases hi : i < new_size
    · simp only [hi, if_true] at h ⊢
      cases hj : iter[j]? with
      | none => simp [hj] at h
      | some b =>
        simp only [hj] at h ⊢
        exact ih _ _ _ _ h
    · simp only [hi, if_false] at h ⊢
      exact h

theorem blockLoop_mono (host : Bool) (iter : List Nat) (new_size : Nat) :
    ∀ (fuel i : Nat) (d r : sha_256_t), blockLoop host iter new_size fuel i d = some r →
      blockLoop host iter new_size (fuel + 1) i d = some r := by
  intro fuel
  induction fuel with
  | zero => intro i d r h; simp [blockLoop] at h
  | succ f ih =>
    intro i d r h
    rw [blockLoop] at h ⊢
    by_cases hi : i < new_size
    · simp only [hi, if_true] at h ⊢
      exact ih _ _ _ h
    · simp only [hi, if_false] at h ⊢
      exact h

/-- A result of `sha256` obtained with some fuel is the result with any larger fuel. -/
theorem sha256_fuel_mono (host : Bool) (message : List Nat) (d : sha_256_t) (fuel extra : Nat)
    (h : sha256_fuel fuel host message = some d) :
    sha256_fuel (fuel + extra) host message = some d := by
  induction extra with
  | zero => exact h
  | succ k ih =>
    unfold sha256_fuel at ih ⊢
    cases hb : padded_buffer (fuel + k) host message with
    | none => simp [hb] at ih
    | some buf =>
      simp only [hb] at ih
      have hb1 : padded_buffer (fuel + (k + 1)) host message = some buf :=
        lengthLoop_mono _ _ _ _ _ _ _ hb
      simp only [hb1]
      exact blockLoop_mono _ _ _ _ _ _ _ ih

/-- When the padded length does not fit the 32-bit index, the loop that writes the length
never ends with a buffer: its index stays below `new_size` and its reads leave `tmp_size`. -/
theorem lengthLoop_none (new_size : Nat) (iter : List Nat) (h : 4294967296 ≤ new_size) :
    ∀ (fuel i j : Nat) (buf : List Nat), i < 4294967296 →
      lengthLoop new_size iter fuel i j buf = none := by
  intro fuel
  induction fuel with
  | zero => intro i j buf _; rfl
  | succ f ih =>
    intro i j buf hi
    have hlt : i < new_size := by omega
    rw [lengthLoop]
    simp only [hlt, if_true]
    cases hj : iter[j]? with
    | none => rfl
    | some b =>
      exact ih _ _ _ (Nat.mod_lt _ (by decide))

/-! ## The fingerprint -/

/-- C1. For every byte string `m` of fewer than `2^32 - 72` bytes and on a host of either
byte order, `sha256(m, len)` returns the eight words that the FIPS 180-4 definition of
SHA-256 gives for `m` (with the fuel `sha256` takes and with any larger fuel), and
`sha256_string(s)` returns that value for the bytes `m` of `s` before its first NUL. -/
theorem sha256_is_fips_180_4 (host : Bool) (m : List Nat)
    (hlen : m.length < 2 ^ 32 - 72) (hbytes : ∀ b ∈ m, b < 256) :
    sha256 host m = some (FIPS180.SHA256 m)
    ∧ (∀ fuel, new_size_of m.length / 64 + 9 ≤ fuel →
        sha256_fuel fuel host m = some (FIPS180.SHA256 m))
    ∧ (∀ s : List Nat, s.takeWhile (fun c => c != 0) = m →
        sha256_string host s = some (FIPS180.SHA256 m)) := by
  have hlen1 : m.length < 4294967224 := by norm_num at hlen; exact hlen
  refine ⟨sha256_eq host m hlen1 hbytes, ?_, ?_⟩
  · intro fuel hf
    exact sha256_fuel_eq fuel host m hf hlen1 hbytes
  · intro s hs
    unfold sha256_string
    rw [take_strlen, hs]
    exact sha256_eq host m hlen1 hbytes

/-- Witness of C1: the three bytes of "abc", on a little-endian host. -/
theorem sha256_is_fips_180_4_witness :
    ((bytes "abc").length < 2 ^ 32 - 72 ∧ ∀ b ∈ bytes "abc", b < 256)
    ∧ sha256 true (bytes "abc") = some (FIPS180.SHA256 (bytes "abc")) :=
  ⟨⟨by decide, by decide⟩, (sha256_is_fips_180_4 true (bytes "abc") (by decide) (by decide)).1⟩

/-- C2. The FIPS 180-4 test vectors pass on both hosts: `sha256_string` of "abc", of the
empty string and of the 56-byte two-block message gives the published words `h0..h7`. -/
theorem sha256_test_vectors (host : Bool) :
    sha256_string host (cstr "abc")
      = some ⟨0xba7816bf, 0x8f01cfea, 0x414140de, 0x5dae2223,
              0xb00361a3, 0x96177a9c, 0xb410ff61, 0xf20015ad⟩
    ∧ sha256_string host (cstr "")
      = some ⟨0xe3b0c442, 0x98fc1c14, 0x9afbf4c8, 0x996fb924,
              0x27ae41e4, 0x649b934c, 0xa495991b, 0x7852b855⟩
    ∧ sha256_string host (cstr "abcdbcdecdefdefgefghfghighijhijkijkljklmklmnlmnomnopnopq")
      = some ⟨0x248d6a61, 0xd20638b8, 0xe5c02693, 0x0c3e6039,
              0xa33ce459, 0x64ff2167, 0xf6ecedd4, 0x19db06c1⟩ := by
  cases host <;> decide!

/-! ## The decision engine -/

/-- C4. For every triple and configuration, `test_tuple` calls `put_msg` exactly once, with
a message of type `UPDATE` whose payload is the 32 bytes of the digest `d`, when the verdict
is GRAY or MATCH or `FLG_UPDATE_ALWAYS` is set in the flags, and not at all otherwise; with
the verdict TRUST and the flag clear nothing is put on the queue and nothing is sent to the
peer. It never calls `put_msg` more than once. -/
theorem test_tuple_update (c : Ctx) (request : gray_tuple_t)
    (h0 : 0 < c.MSGSZ) (hM : c.MSGSZ ≤ 2 ^ 32 - 72) :
    ∃ d out, sha256_string c.host (tuple_buffer c request) = some d
      ∧ test_tuple c request = some out
      ∧ put_msgs out.calls
          = (if out.retvalue = Status.STATUS_GRAY ∨ out.retvalue = Status.STATUS_MATCH
                ∨ c.flags &&& c.FLG_UPDATE_ALWAYS ≠ 0
             then [(UPDATE, object_bytes c.host d, 32, 0)] else [])
      ∧ (object_bytes c.host d).length = 32
      ∧ (out.retvalue = Status.STATUS_TRUST → c.flags &&& c.FLG_UPDATE_ALWAYS = 0 →
          put_msgs out.calls = [] ∧ oper_syncs out.calls = [])
      ∧ (put_msgs out.calls).length ≤ 1 := by
  have hM1 : c.MSGSZ ≤ 4294967224 := by norm_num at hM; exact hM
  obtain ⟨d, hd⟩ := digest_exists c request h0 hM1
  have hp : put_msgs ((check_status c request d).calls
      ++ update_calls c (check_status c request d).retvalue d)
      = if update_due c (check_status c request d).retvalue
        then [(UPDATE, object_bytes c.host d, 32, 0)] else [] := by
    rw [put_msgs_append, (check_status_put_msgs c request d).1, update_calls_put_msgs]
    rfl
  have hs : oper_syncs ((check_status c request d).calls
      ++ update_calls c (check_status c request d).retvalue d)
      = if update_due c (check_status c request d).retvalue = true ∧ c.connected ≠ 0
        then [d] else [] := by
    rw [oper_syncs_append, (check_status_put_msgs c request d).2, update_calls_oper_syncs]
    rfl
  refine ⟨d, _, hd, test_tuple_eq c request d hd, ?_, object_bytes_length _ _, ?_, ?_⟩
  · show put_msgs ((check_status c request d).calls
      ++ update_calls c (check_status c request d).retvalue d) = _
    rw [hp]
    by_cases hu : update_due c (check_status c request d).retvalue = true
    · rw [if_pos hu, if_pos ((update_due_iff _ _).mp hu)]
    · rw [if_neg hu, if_neg (fun h => hu ((update_due_iff _ _).mpr h))]
  · intro ht hf
    have hu : ¬ update_due c (check_status c request d).retvalue = true := by
      intro hu
      rcases (update_due_iff _ _).mp hu with h | h | h
      · exact absurd (ht.symm.trans h) (by decide)
      · exact absurd (ht.symm.trans h) (by decide)
      · exact h hf
    constructor
    · show put_msgs ((check_status c request d).calls
        ++ update_calls c (check_status c request d).retvalue d) = []
      rw [hp, if_neg hu]
    · show oper_syncs ((check_status c request d).calls
        ++ update_calls c (check_status c request d).retvalue d) = []
      rw [hs, if_neg (fun h => hu h.1)]
  · show (put_msgs ((check_status c request d).calls
      ++ update_calls c (check_status c request d).retvalue d)).length ≤ 1
    rw [hp]
    split <;> simp

/-- Witness of C4: the request of S1 with no oracle, the flag clear and no peer. -/
theorem test_tuple_update_witness :
    (0 < (ctx0 true).MSGSZ ∧ (ctx0 true).MSGSZ ≤ 2 ^ 32 - 72)
    ∧ ∃ d out, sha256_string (ctx0 true).host (tuple_buffer (ctx0 true) request0) = some d
      ∧ test_tuple (ctx0 true) request0 = some out
      ∧ put_msgs out.calls
          = (if out.retvalue = Status.STATUS_GRAY ∨ out.retvalue = Status.STATUS_MATCH
                ∨ (ctx0 true).flags &&& (ctx0 true).FLG_UPDATE_ALWAYS ≠ 0
             then [(UPDATE, object_bytes (ctx0 true).host d, 32, 0)] else [])
      ∧ (object_bytes (ctx0 true).host d).length = 32
      ∧ (out.retvalue = Status.STATUS_TRUST →
          (ctx0 true).flags &&& (ctx0 true).FLG_UPDATE_ALWAYS = 0 →
          put_msgs out.calls = [] ∧ oper_syncs out.calls = [])
      ∧ (put_msgs out.calls).length ≤ 1 :=
  ⟨⟨by decide, by decide⟩, test_tuple_update (ctx0 true) request0 (by decide) (by decide)⟩

/-- C5. For every triple, `test_tuple` calls `send_oper_sync` exactly once, with the digest
`d` of the local UPDATE, when an UPDATE is issued (verdict GRAY or MATCH, or
`FLG_UPDATE_ALWAYS` set) and `connected` holds, and not at all otherwise; every operational
sync goes with a `put_msg` of the same digest. -/
theorem test_tuple_oper_sync (c : Ctx) (request : gray_tuple_t)
    (h0 : 0 < c.MSGSZ) (hM : c.MSGSZ ≤ 2 ^ 32 - 72) :
    ∃ d out, sha256_string c.host (tuple_buffer c request) = some d
      ∧ test_tuple c request = some out
      ∧ oper_syncs out.calls
          = (if (out.retvalue = Status.STATUS_GRAY ∨ out.retvalue = Status.STATUS_MATCH
                  ∨ c.flags &&& c.FLG_UPDATE_ALWAYS ≠ 0) ∧ c.connected ≠ 0
             then [d] else [])
      ∧ (∀ x ∈ oper_syncs out.calls,
          put_msgs out.calls = [(UPDATE, object_bytes c.host x, 32, 0)]) := by
  have hM1 : c.MSGSZ ≤ 4294967224 := by norm_num at hM; exact hM
  obtain ⟨d, hd⟩ := digest_exists c request h0 hM1
  have hp : put_msgs ((check_status c request d).calls
      ++ update_calls c (check_status c request d).retvalue d)
      = if update_due c (check_status c request d).retvalue
        then [(UPDATE, object_bytes c.host d, 32, 0)] else [] := by
    rw [put_msgs_append, (check_status_put_msgs c request d).1, update_calls_put_msgs]
    rfl
  have hs : oper_syncs ((check_status c request d).calls
      ++ update_calls c (check_status c request d).retvalue d)
      = if update_due c (check_status c request d).retvalue = true ∧ c.connected ≠ 0
        then [d] else [] := by
    rw [oper_syncs_append, (check_status_put_msgs c request d).2, update_calls_oper_syncs]
    rfl
  refine ⟨d, _, hd, test_tuple_eq c request d hd, ?_, ?_⟩
  · show oper_syncs ((check_status c request d).calls
      ++ update_calls c (check_status c request d).retvalue d) = _
    rw [hs]
    by_cases hu : update_due c (check_status c request d).retvalue = true ∧ c.connected ≠ 0
    · rw [if_pos hu, if_pos ⟨(update_due_iff _ _).mp hu.1, hu.2⟩]
    · rw [if_neg hu, if_neg (fun h => hu ⟨(update_due_iff _ _).mpr h.1, h.2⟩)]
  · intro x hx
    change x ∈ oper_syncs ((check_status c request d).calls
      ++ update_calls c (check_status c request d).retvalue d) at hx
    show put_msgs ((check_status c request d).calls
      ++ update_calls c (check_status c request d).retvalue d) = _
    rw [hs] at hx
    by_cases hu : update_due c (check_status c request d).retvalue = true ∧ c.connected ≠ 0
    · rw [if_pos hu, List.mem_singleton] at hx
      rw [hp, if_pos hu.1, hx]
    · rw [if_neg hu] at hx
      exact absurd hx (List.not_mem_nil _)

/-- Witness of C5: a connected peer, the oracle reports clean and the flag is set. -/
theorem test_tuple_oper_sync_witness :
    (0 < (ctx1 false).MSGSZ ∧ (ctx1 false).MSGSZ ≤ 2 ^ 32 - 72)
    ∧ ∃ d out, sha256_string (ctx1 false).host (tuple_buffer (ctx1 false) request0) = some d
      ∧ test_tuple (ctx1 false) request0 = some out
      ∧ oper_syncs out.calls
          = (if (out.retvalue = Status.STATUS_GRAY ∨ out.retvalue = Status.STATUS_MATCH
                  ∨ (ctx1 false).flags &&& (ctx1 false).FLG_UPDATE_ALWAYS ≠ 0)
                ∧ (ctx1 false).connected ≠ 0
             then [d] else [])
      ∧ (∀ x ∈ oper_syncs out.calls,
          put_msgs out.calls = [(UPDATE, object_bytes (ctx1 false).host x, 32, 0)]) :=
  ⟨⟨by decide, by decide⟩, test_tuple_oper_sync (ctx1 false) request0 (by decide) (by decide)⟩

/-- C6, counterexample. On a little-endian host the payload that `test_tuple` puts on the
queue for the request "10.0.0.1 a@x b@y" starts `ff 9b 58 97`, while the FIPS 180-4 digest
byte sequence of that string, which a big-endian host puts there, starts `97 58 9b ff`. -/
theorem update_payload_differs_between_hosts :
    (test_tuple (ctx0 true) request0).map (fun out => put_msgs out.calls)
      = some [(UPDATE, [255, 155, 88, 151, 44, 117, 156, 109, 184, 68, 144, 53, 70, 13, 60, 148,
          195, 15, 158, 17, 5, 211, 63, 189, 181, 147, 233, 84, 241, 6, 165, 25], 32, 0)]
    ∧ FIPS180.digestBytes (FIPS180.SHA256 (serialization request0))
      = [151, 88, 155, 255, 109, 156, 117, 44, 53, 144, 68, 184, 148, 60, 13, 70,
          17, 158, 15, 195, 189, 63, 211, 5, 84, 233, 147, 181, 25, 165, 6, 241]
    ∧ (test_tuple (ctx0 true) request0).map (fun out => put_msgs out.calls)
      ≠ some [(UPDATE, FIPS180.digestBytes (FIPS180.SHA256 (serialization request0)), 32, 0)]
    ∧ (test_tuple (ctx0 true) request0).map (fun out => put_msgs out.calls)
      ≠ (test_tuple (ctx0 false) request0).map (fun out => put_msgs out.calls) := by
  refine ⟨by decide!, by decide!, by decide!, by decide!⟩

/-- C6, amended. For every well-formed triple and on every host, the 32 bytes that
`test_tuple` copies into the UPDATE payload are the object representation on that host of
the eight FIPS 180-4 words `h0..h7` of the fingerprinted string: the FIPS digest byte
sequence on a big-endian host, every word least significant byte first on a little-endian
host; the digest handed to `send_oper_sync` is those eight words on either host. -/
theorem update_payload_host_order (c : Ctx) (request : gray_tuple_t)
    (h0 : 0 < c.MSGSZ) (hM : c.MSGSZ ≤ 2 ^ 32 - 72) (hwf : request.WellFormed) :
    ∃ out, test_tuple c request = some out
      ∧ put_msgs out.calls
          = (if out.retvalue = Status.STATUS_GRAY ∨ out.retvalue = Status.STATUS_MATCH
                ∨ c.flags &&& c.FLG_UPDATE_ALWAYS ≠ 0
             then [(UPDATE,
                    if c.host then wordsLittleEndian (FIPS180.SHA256 (fingerprinted c request))
                    else FIPS180.digestBytes (FIPS180.SHA256 (fingerprinted c request)),
                    32, 0)]
             else [])
      ∧ (∀ d ∈ oper_syncs out.calls, d = FIPS180.SHA256 (fingerprinted c request)) := by
  have hM1 : c.MSGSZ ≤ 4294967224 := by norm_num at hM; exact hM
  have hl := fingerprinted_length c request h0
  have hv : ∀ b ∈ fingerprinted c request, b < 256 := by
    intro b hb
    rw [fingerprinted_eq c request h0 hwf] at hb
    exact (serialization_cstring request hwf b (List.mem_of_mem_take hb)).2
  have hd : sha256_string c.host (tuple_buffer c request)
      = some (FIPS180.SHA256 (fingerprinted c request)) := by
    rw [sha256_string_eq]
    exact sha256_eq c.host _ (by omega) hv
  have hp : put_msgs ((check_status c request (FIPS180.SHA256 (fingerprinted c request))).calls
      ++ update_calls c (check_status c request (FIPS180.SHA256 (fingerprinted c request))).retvalue
        (FIPS180.SHA256 (fingerprinted c request)))
      = if update_due c (check_status c request (FIPS180.SHA256 (fingerprinted c request))).retvalue
        then [(UPDATE, object_bytes c.host (FIPS180.SHA256 (fingerprinted c request)), 32, 0)]
        else [] := by
    rw [put_msgs_append, (check_status_put_msgs c request _).1, update_calls_put_msgs]
    rfl
  have hs : oper_syncs ((check_status c request (FIPS180.SHA256 (fingerprinted c request))).calls
      ++ update_calls c (check_status c request (FIPS180.SHA256 (fingerprinted c request))).retvalue
        (FIPS180.SHA256 (fingerprinted c request)))
      = if update_due c (check_status c request
            (FIPS180.SHA256 (fingerprinted c request))).retvalue = true ∧ c.connected ≠ 0
        then [FIPS180.SHA256 (fingerprinted c request)] else [] := by
    rw [oper_syncs_append, (check_status_put_msgs c request _).2, update_calls_oper_syncs]
    rfl
  have hob : object_bytes c.host (FIPS180.SHA256 (fingerprinted c request))
      = if c.host then wordsLittleEndian (FIPS180.SHA256 (fingerprinted c request))
        else FIPS180.digestBytes (FIPS180.SHA256 (fingerprinted c request)) := by
    cases hh : c.host
    · simp only [Bool.false_eq_true, if_false, object_bytes_false]
    · simp only [if_true, object_bytes_true]
  refine ⟨_, test_tuple_eq c request _ hd, ?_, ?_⟩
  · show put_msgs ((check_status c request (FIPS180.SHA256 (fingerprinted c request))).calls
      ++ update_calls c (check_status c request (FIPS180.SHA256 (fingerprinted c request))).retvalue
        (FIPS180.SHA256 (fingerprinted c request))) = _
    rw [hp, hob]
    by_cases hu : update_due c
        (check_status c request (FIPS180.SHA256 (fingerprinted c request))).retvalue = true
    · rw [if_pos hu, if_pos ((update_due_iff _ _).mp hu)]
    · rw [if_neg hu, if_neg (fun h => hu ((update_due_iff _ _).mpr h))]
  · intro d hx
    change d ∈ oper_syncs ((check_status c request (FIPS180.SHA256 (fingerprinted c request))).calls
      ++ update_calls c (check_status c request (FIPS180.SHA256 (fingerprinted c request))).retvalue
        (FIPS180.SHA256 (fingerprinted c request))) at hx
    rw [hs] at hx
    split at hx
    · exact List.mem_singleton.mp hx
    · exact absurd hx (List.not_mem_nil _)

/-- Witness of C6, amended: the request of S1 on a little-endian host. -/
theorem update_payload_host_order_witness :
    (0 < (ctx0 true).MSGSZ ∧ (ctx0 true).MSGSZ ≤ 2 ^ 32 - 72 ∧ request0.WellFormed)
    ∧ ∃ out, test_tuple (ctx0 true) request0 = some out
      ∧ put_msgs out.calls
          = (if out.retvalue = Status.STATUS_GRAY ∨ out.retvalue = Status.STATUS_MATCH
                ∨ (ctx0 true).flags &&& (ctx0 true).FLG_UPDATE_ALWAYS ≠ 0
             then [(UPDATE,
                    if (ctx0 true).host
                    then wordsLittleEndian (FIPS180.SHA256 (fingerprinted (ctx0 true) request0))
                    else FIPS180.digestBytes (FIPS180.SHA256 (fingerprinted (ctx0 true) request0)),
                    32, 0)]
             else [])
      ∧ (∀ d ∈ oper_syncs out.calls,
          d = FIPS180.SHA256 (fingerprinted (ctx0 true) request0)) :=
  ⟨⟨by decide, by decide, by decide⟩,
    update_payload_host_order (ctx0 true) request0 (by decide) (by decide) (by decide)⟩

/-- C8, counterexample. With `MSGSZ = 1024`, a triple whose client address is 1030 bytes
long is fingerprinted as its first 1023 bytes, not as its serialization, and two such
triples with different recipients, hence different serializations, are fingerprinted as
the same string. -/
theorem long_triple_is_truncated :
    (requestLong 0x63).WellFormed ∧ (requestLong 0x64).WellFormed
    ∧ fingerprinted (ctx0 true) (requestLong 0x63) ≠ serialization (requestLong 0x63)
    ∧ (fingerprinted (ctx0 true) (requestLong 0x63)).length = 1023
    ∧ (serialization (requestLong 0x63)).length = 1034
    ∧ serialization (requestLong 0x63) ≠ serialization (requestLong 0x64)
    ∧ fingerprinted (ctx0 true) (requestLong 0x63) = fingerprinted (ctx0 true) (requestLong 0x64) := by
  decide!

/-- C8, amended. For every well-formed triple, the string that `test_tuple` fingerprints is
the first `MSGSZ - 1` bytes of `client_address ++ " " ++ sender ++ " " ++ recipient`; it is
exactly that serialization when the serialization is shorter than `MSGSZ`, and then two
triples with different serializations are fingerprinted as different strings. The digest
that `test_tuple` looks up in the ring is `sha256` of the fingerprinted string. -/
theorem fingerprinted_string (c : Ctx) (request other : gray_tuple_t)
    (h0 : 0 < c.MSGSZ) (hM : c.MSGSZ ≤ 2 ^ 32 - 72)
    (hwf : request.WellFormed) (hwf2 : other.WellFormed) :
    fingerprinted c request = (serialization request).take (c.MSGSZ - 1)
    ∧ ((serialization request).length < c.MSGSZ →
        fingerprinted c request
          = request.client_address ++ [0x20] ++ request.sender ++ [0x20] ++ request.recipient)
    ∧ ((serialization request).length < c.MSGSZ → (serialization other).length < c.MSGSZ →
        serialization request ≠ serialization other →
        fingerprinted c request ≠ fingerprinted c other)
    ∧ ∃ d out, sha256 c.host (fingerprinted c request) = some d
        ∧ test_tuple c request = some out
        ∧ Call.is_in_ring_queue d ∈ out.calls := by
  have hM1 : c.MSGSZ ≤ 4294967224 := by norm_num at hM; exact hM
  have hshort : ∀ r : gray_tuple_t, r.WellFormed → (serialization r).length < c.MSGSZ →
      fingerprinted c r = serialization r := by
    intro r hr hlen
    rw [fingerprinted_eq c r h0 hr]
    exact List.take_of_length_le (by omega)
  refine ⟨fingerprinted_eq c request h0 hwf, ?_, ?_, ?_⟩
  · intro hlen
    exact hshort request hwf hlen
  · intro h1 h2 hne
    rw [hshort request hwf h1, hshort other hwf2 h2]
    exact hne
  · obtain ⟨d, hd⟩ := digest_exists c request h0 hM1
    refine ⟨d, _, hd, test_tuple_eq c request d hd, ?_⟩
    show Call.is_in_ring_queue d ∈ (check_status c request d).calls
      ++ update_calls c (check_status c request d).retvalue d
    apply List.mem_append_left
    unfold check_status
    by_cases h1 : c.is_in_ring_queue d = 0 <;> by_cases h2 : c.DNSBL = true <;>
      by_cases h3 : c.dnsblc request.client_address = 0 <;> simp [h1, h2, h3]

/-- Witness of C8, amended: the request of S1 and a long request, with `MSGSZ = 1024`. -/
theorem fingerprinted_string_witness :
    (0 < (ctx0 true).MSGSZ ∧ (ctx0 true).MSGSZ ≤ 2 ^ 32 - 72
      ∧ request0.WellFormed ∧ (requestLong 0x63).WellFormed)
    ∧ fingerprinted (ctx0 true) request0 = (serialization request0).take ((ctx0 true).MSGSZ - 1) :=
  ⟨⟨by decide, by decide, by decide, by decide!⟩,
    (fingerprinted_string (ctx0 true) request0 (requestLong 0x63)
      (by decide) (by decide) (by decide) (by decide!)).1⟩

/-- C9. The verdict of `test_tuple` does not depend on what `put_msg`, `connected`,
`send_oper_sync` and `logstr` return: a run that differs only in those returns the same
verdict and makes the same `put_msg` call, at most one, also when `put_msg` fails. -/
theorem test_tuple_verdict_independent (c : Ctx) (request : gray_tuple_t) (p k s l : Int)
    (h0 : 0 < c.MSGSZ) (hM : c.MSGSZ ≤ 2 ^ 32 - 72) :
    ∃ out out1, test_tuple c request = some out
      ∧ test_tuple { c with put_msg := p, connected := k, send_oper_sync := s, logstr := l }
          request = some out1
      ∧ out1.retvalue = out.retvalue
      ∧ put_msgs out1.calls = put_msgs out.calls
      ∧ (put_msgs out.calls).length ≤ 1 := by
  have hM1 : c.MSGSZ ≤ 4294967224 := by norm_num at hM; exact hM
  obtain ⟨d, hd⟩ := digest_exists c request h0 hM1
  have hd1 : sha256_string
      ({ c with put_msg := p, connected := k, send_oper_sync := s, logstr := l } : Ctx).host
      (tuple_buffer { c with put_msg := p, connected := k, send_oper_sync := s, logstr := l }
        request) = some d := hd
  refine ⟨_, _, test_tuple_eq c request d hd, test_tuple_eq _ request d hd1, rfl, ?_, ?_⟩
  · show put_msgs (_ ++ _) = put_msgs (_ ++ _)
    rw [put_msgs_append, put_msgs_append, (check_status_put_msgs _ request d).1,
      (check_status_put_msgs c request d).1, update_calls_put_msgs, update_calls_put_msgs]
    rfl
  · show (put_msgs (_ ++ _)).length ≤ 1
    rw [put_msgs_append, (check_status_put_msgs c request d).1, update_calls_put_msgs]
    split <;> simp

/-- Witness of C9: `put_msg` fails in one run and succeeds in the other. -/
theorem test_tuple_verdict_independent_witness :
    (0 < (ctx1 true).MSGSZ ∧ (ctx1 true).MSGSZ ≤ 2 ^ 32 - 72)
    ∧ ∃ out out1, test_tuple (ctx1 true) request0 = some out
      ∧ test_tuple { ctx1 true with put_msg := 0, connected := 0, send_oper_sync := -1,
                                    logstr := -1 } request0 = some out1
      ∧ out1.retvalue = out.retvalue
      ∧ put_msgs out1.calls = put_msgs out.calls
      ∧ (put_msgs out.calls).length ≤ 1 :=
  ⟨⟨by decide, by decide⟩,
    test_tuple_verdict_independent (ctx1 true) request0 0 0 (-1) (-1) (by decide) (by decide)⟩

/-! ## The front-end -/

/-- C7, the failing run. In the `udp_server` build with `max_workers = 1`, one datagram and
the return of its worker leave the semaphore at 2: `udp_server` starts the worker without
`sem_trywait` and `worker` still does its `sem_post`. After the arrival alone the semaphore
plus the running workers is already 2. -/
theorem udp_server_exceeds_max_workers :
    run Transport.udp (initial 1) [Event.arrival] = some { sem := 1, running := 1 }
    ∧ run Transport.udp (initial 1) [Event.arrival, Event.worker_exit]
        = some { sem := 2, running := 0 }
    ∧ Reachable Transport.udp 1 { sem := 2, running := 0 }
    ∧ ¬ SemInvariant 1 { sem := 2, running := 0 } := by
  refine ⟨by decide, by decide, ⟨[Event.arrival, Event.worker_exit], by decide⟩, ?_⟩
  intro h
  exact absurd h.1 (by decide)

/-! ## The padding -/

/-- C10, counterexample. For a message of `2^32 - 72` bytes, a length below `2^61`, the
padded length is `2^32`, the loop that writes the bit length does not end for any fuel on
either host, and `sha256` has no buffer to hash and no result. -/
theorem length_loop_has_no_result_at_4GiB :
    (List.replicate 4294967224 0).length < 2 ^ 61
    ∧ new_size_of (List.replicate 4294967224 0).length = 4294967296
    ∧ (∀ (fuel : Nat) (host : Bool),
        padded_buffer fuel host (List.replicate 4294967224 0) = none
        ∧ sha256_fuel fuel host (List.replicate 4294967224 0) = none) := by
  have hl : (List.replicate 4294967224 0).length = 4294967224 := List.length_replicate _ _
  have hn : new_size_of 4294967224 = 4294967296 := by decide
  refine ⟨by rw [hl]; decide, by rw [hl, hn], ?_⟩
  intro fuel host
  have hp : padded_buffer fuel host (List.replicate 4294967224 0) = none := by
    simp only [padded_buffer, hl, hn]
    exact lengthLoop_none _ _ (le_refl _) _ _ _ _ (Nat.mod_lt _ (by decide))
  refine ⟨hp, ?_⟩
  unfold sha256_fuel
  rw [hp]

/-- C10, amended. For every `size < 2^61` the padded length `new_size` computed in unsigned
64-bit arithmetic is the smallest multiple of 64 that is at least `size + 9`, so
`size + 9 <= new_size < size + 73`; and for every message of fewer than `2^32 - 72` bytes
the buffer that is hashed is `message ++ [0x80] ++ zeros ++ length`, with
`new_size - size - 9` zero bytes and the 8-byte big-endian encoding of `8 * size`. -/
theorem padded_buffer_layout (size fuel : Nat) (host : Bool) (message : List Nat)
    (hsize : size < 2 ^ 61) (hlen : message.length < 2 ^ 32 - 72) (hfuel : 9 ≤ fuel) :
    (64 ∣ new_size_of size ∧ size + 9 ≤ new_size_of size ∧ new_size_of size < size + 73
      ∧ ∀ m, 64 ∣ m → size + 9 ≤ m → new_size_of size ≤ m)
    ∧ padded_buffer fuel host message = some (message ++ [0x80]
        ++ List.replicate (new_size_of message.length - message.length - 9) 0
        ++ FIPS180.toBytesBE 8 (8 * message.length)) := by
  have hsize1 : size < 2305843009213693952 := by norm_num at hsize; exact hsize
  have hlen1 : message.length < 4294967224 := by norm_num at hlen; exact hlen
  have hn := new_size_of_eq size hsize1
  refine ⟨⟨?_, ?_, ?_, ?_⟩, padded_buffer_eq fuel host message hfuel hlen1⟩
  · rw [hn]; exact Dvd.intro _ rfl
  · omega
  · omega
  · intro m hm hle
    obtain ⟨q, rfl⟩ := hm
    omega

/-- Witness of C10, amended: the three bytes of "abc" on a little-endian host. -/
theorem padded_buffer_layout_witness :
    ((3 : Nat) < 2 ^ 61 ∧ (bytes "abc").length < 2 ^ 32 - 72 ∧ 9 ≤ 9)
    ∧ padded_buffer 9 true (bytes "abc") = some (bytes "abc" ++ [0x80]
        ++ List.replicate (new_size_of (bytes "abc").length - (bytes "abc").length - 9) 0
        ++ FIPS180.toBytesBE 8 (8 * (bytes "abc").length)) :=
  ⟨⟨by decide, by decide, by decide⟩,
    (padded_buffer_layout 3 9 true (bytes "abc") (by decide) (by decide) (by decide)).2⟩

end Gross
